import Mathlib

/-!
# Verification of the spec-to-ClickUp synchronization engine

This file is a shallow embedding, in Lean 4, of the core of
`scripts/clickup/sync-specs-to-clickup.ts` (the hierarchy sync engine, the
status reconciler, the name-based item lookup, the write-back mutator) and of
the response-retry interceptor of the migration client embedded in
`scripts/clickup/create-worktrees-from-ready-tasks.sh`.

Modelling conventions:
* TypeScript strings become Lean `String` (or `List Char` where we must model
  character-level regular-expression scanning).
* The remote ClickUp service is an explicit environment (`RemoteState`): the
  read operations (`getFolders`, `getLists`, `getTasks`) read from it, and the
  mutating operations (create/update calls and spec-file write-backs) are
  recorded as an ordered trace of `Event`s rather than performed.  Within a
  single run every spec node is visited once and name updates preserve the
  `"{id}: "` prefix used by lookups, so reads from the unchanged environment
  are faithful.
* Fresh remote ids returned by create calls are modelled by a counter
  (`freshId`), threaded through the recursion.
* `async`/`await` sequencing is direct sequencing: the engine is a single
  logical thread (spec §5).
-/

namespace Sync

/-! ## Status reconciler (sync-specs-to-clickup.ts, lines 416-480) -/

/-- Models JavaScript `s.toLowerCase()` (the statuses and priorities it is
applied to are ASCII): lower-case every character. -/
def jsToLower (s : String) : String := ⟨s.data.map Char.toLower⟩

/-- `mapPriorityToClickUp` (lines 416-426): source priority word to ClickUp
numeric priority, defaulting to 3. -/
def mapPriorityToClickUp (priority : String) : Nat :=
  let s := jsToLower priority
  if s = "urgent" then 1
  else if s = "critical" then 1
  else if s = "high" then 2
  else if s = "normal" then 3
  else if s = "medium" then 3
  else if s = "low" then 4
  else 3

/-- `mapStatusToClickUp` (lines 428-444): case-insensitive lookup from the
source status vocabulary to the ClickUp status vocabulary, defaulting to
`DRAFT` for unrecognized values. -/
def mapStatusToClickUp (status : String) : String :=
  let s := jsToLower status
  if s = "draft" then "DRAFT"
  else if s = "planned" then "PLANNED"
  else if s = "in-progress" then "IN PROGRESS"
  else if s = "in_progress" then "IN PROGRESS"
  else if s = "completed" then "COMPLETE"
  else if s = "complete" then "COMPLETE"
  else if s = "blocked" then "BLOCKED"
  else if s = "review" then "REVIEW"
  else if s = "testing" then "TESTING"
  else if s = "cancelled" then "CANCELLED"
  else if s = "canceled" then "CANCELLED"
  else if s = "abandoned" then "CANCELLED"
  else "DRAFT"

/-- `getStatusPriority` (lines 450-462): the ordinal of a ClickUp status in the
workflow.  The record lookup `statusPriority[status] ?? 0` returns `0` for any
string that is not one of the eight exact keys. -/
def getStatusPriority (status : String) : Nat :=
  if status = "DRAFT" then 1
  else if status = "PLANNED" then 2
  else if status = "BLOCKED" then 3
  else if status = "IN PROGRESS" then 4
  else if status = "REVIEW" then 5
  else if status = "TESTING" then 6
  else if status = "COMPLETE" then 7
  else if status = "CANCELLED" then 0
  else 0

/-- `isStatusDowngrade` (lines 469-480): transitions to or from `CANCELLED` are
never downgrades; otherwise a change is a downgrade exactly when it moves to a
strictly lower ordinal. -/
def isStatusDowngrade (currentStatus newStatus : String) : Bool :=
  if currentStatus = "CANCELLED" || newStatus = "CANCELLED" then false
  else getStatusPriority currentStatus > getStatusPriority newStatus

/-- The eight exact keys of the `statusPriority` record. -/
def statusKeys : List String :=
  ["DRAFT", "PLANNED", "BLOCKED", "IN PROGRESS", "REVIEW", "TESTING",
   "COMPLETE", "CANCELLED"]

theorem getStatusPriority_eq_zero_of_not_key (s : String) (h : s ∉ statusKeys) :
    getStatusPriority s = 0 := by
  simp only [statusKeys, List.mem_cons, List.not_mem_nil, or_false, not_or] at h
  obtain ⟨h1, h2, h3, h4, h5, h6, h7, h8⟩ := h
  simp [getStatusPriority, h1, h2, h3, h4, h5, h6, h7, h8]

/-! ## Remote state and name-based lookup (sync-specs-to-clickup.ts, lines 159-330) -/

/-- Models JavaScript `name.startsWith(pre)`. -/
def jsStartsWith (name pre : String) : Bool :=
  pre.data.isPrefixOf name.data

/-- A ClickUp folder as returned by `getFolders` (`ClickUpFolder`): an opaque
remote id and a display name. -/
structure RFolder where
  rid : String
  name : String
  deriving DecidableEq, Repr

/-- A ClickUp list as returned by `getLists` (`ClickUpList`). -/
structure RList where
  rid : String
  name : String
  deriving DecidableEq, Repr

/-- A ClickUp task as returned by `getTasks` (`ClickUpTask`), restricted to the
fields the sync engine reads: the remote id, the display name and the current
status (`status.status`). -/
structure RTask where
  rid : String
  name : String
  status : String
  deriving DecidableEq, Repr

/-- The remote ClickUp workspace as the engine reads it: the folders of the one
space being synced, the lists of each folder, and the tasks (including nested
subtasks, per the `subtasks: true` query parameter) of each list. -/
structure RemoteState where
  folders : List RFolder
  lists : String → List RList
  tasks : String → List RTask

/-- `findFolder` (lines 207-210): exact-name match over the space's folders;
`Array.prototype.find` returns the first hit or `null`. -/
def findFolder (st : RemoteState) (folderName : String) : Option RFolder :=
  st.folders.find? (fun f => f.name = folderName)

/-- `findList` (lines 234-237): exact-name match over the folder's lists. -/
def findList (st : RemoteState) (folderId listName : String) : Option RList :=
  (st.lists folderId).find? (fun l => l.name = listName)

/-- `findTaskByCustomId` (lines 287-290): first task in the list whose name
starts with `customId` followed by a colon. -/
def findTaskByCustomId (st : RemoteState) (listId customId : String) :
    Option RTask :=
  (st.tasks listId).find? (fun t => jsStartsWith t.name (customId ++ ":"))

/-- `findSubtaskByCustomId` (lines 312-315): same prefix-with-colon match
(subtasks are plain tasks of the list). -/
def findSubtaskByCustomId (st : RemoteState) (listId customId : String) :
    Option RTask :=
  (st.tasks listId).find? (fun t => jsStartsWith t.name (customId ++ ":"))

/-- A two-item list containing `"T1: Foo"` and `"T10: Bar"`, in that order. -/
def prefixDemoState : RemoteState where
  folders := []
  lists := fun _ => []
  tasks := fun _ =>
    [⟨"a1", "T1: Foo", "DRAFT"⟩, ⟨"a2", "T10: Bar", "DRAFT"⟩]

/-- The same two items in the opposite order. -/
def prefixDemoStateRev : RemoteState where
  folders := []
  lists := fun _ => []
  tasks := fun _ =>
    [⟨"a2", "T10: Bar", "DRAFT"⟩, ⟨"a1", "T1: Foo", "DRAFT"⟩]

/-! ## Source tree and the hierarchy sync engine
(sync-specs-to-clickup.ts, lines 676-1134)

The engine's remote create/update calls and its spec-file write-backs are
recorded as a trace of `Event`s.  The `createTask` payload also carries a
description, numeric priority, start date, time estimate and tags
(lines 911-919); none of the verified claims constrain those fields, so the
recorded action keeps the name and the mapped status only. -/

/-- The front-matter fields of a loaded spec document that the engine's
control flow reads (`SpecMetadata`, restricted to `title` and `status`). -/
structure SpecMeta where
  title : String
  status : String
  deriving DecidableEq, Repr

/-- The loaded source tree.  `specs` is the id-to-document map built by
`getAllSpecFiles`; the three directory fields give, for a parent id, the
child directory names found on disk, already filtered by the respective
`^F\d+$` / `^T\d+$` / `^S\d+$` patterns and sorted, exactly as the
`readdirSync(...).filter(...).sort()` pipelines produce them
(lines 721-725, 786-792, 852-858). -/
structure SpecTree where
  specs : List (String × SpecMeta)
  featureDirs : String → List String
  taskDirs : String → List String
  subtaskDirs : String → List String

/-- `allSpecs.get(id)` over the loaded map. -/
def lookupSpec (tr : SpecTree) (sid : String) : Option SpecMeta :=
  (tr.specs.find? (fun p => p.1 = sid)).map (·.2)

/-- A mutating action of the engine: a remote create/update call or a
write-back of a generated remote id into a source document. -/
inductive Action where
  | createFolder (name : String)
  | createList (folderId name : String)
  | createTask (listId name status : String)
  | updateName (taskRid newName : String)
  | updateStatus (taskRid newStatus : String)
  | setParent (taskRid parentRid : String)
  | writeBack (specId taskRid : String)
  deriving DecidableEq, Repr

/-- A trace entry: in live mode the action is performed (`did`); in dry-run
mode the engine only logs the action it would have taken (`wouldDo`). -/
inductive Event where
  | did (a : Action)
  | wouldDo (a : Action)
  deriving DecidableEq, Repr

/-- The action an event is about, whether performed or only logged. -/
def Event.action : Event → Action
  | .did a => a
  | .wouldDo a => a

/-- Emit an action as performed or as logged, according to the mode. -/
def emit (dryRun : Bool) (a : Action) : Event :=
  if dryRun then .wouldDo a else .did a

/-- Fresh remote ids handed out by create calls, modelled by a counter. -/
def freshId (n : Nat) : String := "new" ++ toString n

/-- The shared reconcile-name step (lines 829-838, 982-991, 1071-1080): if the
existing item's name differs from `"{id}: {title}"`, update it. -/
def nameEvents (dryRun : Bool) (rid existingName expectedName : String) :
    List Event :=
  if existingName ≠ expectedName then [emit dryRun (.updateName rid expectedName)]
  else []

/-- The shared reconcile-status step (lines 889-904, 997-1012, 1086-1101): if
the status changed, skip the update when it would be a downgrade, otherwise
issue (or log) the update. -/
def statusEvents (dryRun : Bool) (rid currentStatus newStatus : String) :
    List Event :=
  if currentStatus ≠ newStatus then
    if isStatusDowngrade currentStatus newStatus then []
    else [emit dryRun (.updateStatus rid newStatus)]
  else []

/-- `allChildrenComplete` (lines 874-878): every subtask id has a loaded spec
whose mapped status is `COMPLETE`. -/
def allChildrenComplete (tr : SpecTree) (subtaskIds : List String) : Bool :=
  subtaskIds.all fun sid =>
    match lookupSpec tr sid with
    | none => false
    | some s => mapStatusToClickUp s.status = "COMPLETE"

/-- The promotion step of `syncTask` (lines 872-886): with at least one
subtask directory, all children mapped `COMPLETE` and a target not already
`COMPLETE`, the target status is overridden to `COMPLETE`. -/
def computeTargetStatus (tr : SpecTree) (subtaskIds : List String)
    (mapped : String) : String :=
  if subtaskIds.length > 0 then
    if allChildrenComplete tr subtaskIds ∧ mapped ≠ "COMPLETE" then "COMPLETE"
    else mapped
  else mapped

/-- `syncSubtask` (lines 958-1045).  Returns the event trace and the updated
fresh-id counter. -/
def syncSubtask (st : RemoteState) (tr : SpecTree)
    (listId parentTaskRid subtaskId : String) (dryRun : Bool) (ctr : Nat) :
    List Event × Nat :=
  match lookupSpec tr subtaskId with
  | none => ([], ctr)
  | some spec =>
    match findSubtaskByCustomId st listId subtaskId with
    | some existing =>
      let expectedName := subtaskId ++ ": " ++ spec.title
      (nameEvents dryRun existing.rid existing.name expectedName ++
        statusEvents dryRun existing.rid existing.status
          (mapStatusToClickUp spec.status), ctr)
    | none =>
      if dryRun then
        ([.wouldDo (.createTask listId (subtaskId ++ ": " ++ spec.title)
            (mapStatusToClickUp spec.status))], ctr)
      else
        let nid := freshId ctr
        ([.did (.createTask listId (subtaskId ++ ": " ++ spec.title)
            (mapStatusToClickUp spec.status)),
          .did (.setParent nid parentTaskRid),
          .did (.writeBack subtaskId nid)], ctr + 1)

/-- The `for (const subtaskId of subtaskDirs)` loops of `syncTask`
(lines 861-865, 946-952). -/
def syncSubtasksAll (st : RemoteState) (tr : SpecTree)
    (listId parentTaskRid : String) (subtaskIds : List String) (dryRun : Bool)
    (ctr : Nat) : List Event × Nat :=
  match subtaskIds with
  | [] => ([], ctr)
  | sid :: rest =>
    let r1 := syncSubtask st tr listId parentTaskRid sid dryRun ctr
    let r2 := syncSubtasksAll st tr listId parentTaskRid rest dryRun r1.2
    (r1.1 ++ r2.1, r2.2)

/-- `syncTask` (lines 806-956).  In the reconcile branch the engine updates
the name, recurses into the subtasks first, then computes the target status
(with child-driven promotion) and applies the downgrade-guarded update; in the
create branch it creates the item, writes the new remote id back, and recurses
into the subtasks with the just-created parent id (in dry-run it only logs the
creation). -/
def syncTask (st : RemoteState) (tr : SpecTree) (listId taskId : String)
    (dryRun : Bool) (ctr : Nat) : List Event × Nat :=
  match lookupSpec tr taskId with
  | none => ([], ctr)
  | some spec =>
    let subtaskIds := (tr.subtaskDirs taskId).map (fun d => taskId ++ "-" ++ d)
    match findTaskByCustomId st listId taskId with
    | some existing =>
      let expectedName := taskId ++ ": " ++ spec.title
      let subRes := syncSubtasksAll st tr listId existing.rid subtaskIds dryRun ctr
      let newStatus :=
        computeTargetStatus tr subtaskIds (mapStatusToClickUp spec.status)
      (nameEvents dryRun existing.rid existing.name expectedName ++
        subRes.1 ++
        statusEvents dryRun existing.rid existing.status newStatus, subRes.2)
    | none =>
      if dryRun then
        ([.wouldDo (.createTask listId (taskId ++ ": " ++ spec.title)
            (mapStatusToClickUp spec.status))], ctr)
      else
        let nid := freshId ctr
        let subRes := syncSubtasksAll st tr listId nid subtaskIds dryRun (ctr + 1)
        ([.did (.createTask listId (taskId ++ ": " ++ spec.title)
            (mapStatusToClickUp spec.status)),
          .did (.writeBack taskId nid)] ++ subRes.1, subRes.2)

/-- `syncExtension` (lines 1047-1134): same find-or-create shape as
`syncSubtask`, parented to the enclosing task's or subtask's item. -/
def syncExtension (st : RemoteState) (tr : SpecTree)
    (listId parentRid extensionId : String) (dryRun : Bool) (ctr : Nat) :
    List Event × Nat :=
  match lookupSpec tr extensionId with
  | none => ([], ctr)
  | some spec =>
    match findSubtaskByCustomId st listId extensionId with
    | some existing =>
      let expectedName := extensionId ++ ": " ++ spec.title
      (nameEvents dryRun existing.rid existing.name expectedName ++
        statusEvents dryRun existing.rid existing.status
          (mapStatusToClickUp spec.status), ctr)
    | none =>
      if dryRun then
        ([.wouldDo (.createTask listId (extensionId ++ ": " ++ spec.title)
            (mapStatusToClickUp spec.status))], ctr)
      else
        let nid := freshId ctr
        ([.did (.createTask listId (extensionId ++ ": " ++ spec.title)
            (mapStatusToClickUp spec.status)),
          .did (.setParent nid parentRid),
          .did (.writeBack extensionId nid)], ctr + 1)

/-- The `for (const taskId of taskDirs)` loop of `syncFeature` (line 801). -/
def syncTasksAll (st : RemoteState) (tr : SpecTree) (listId : String)
    (taskIds : List String) (dryRun : Bool) (ctr : Nat) : List Event × Nat :=
  match taskIds with
  | [] => ([], ctr)
  | tid :: rest =>
    let r1 := syncTask st tr listId tid dryRun ctr
    let r2 := syncTasksAll st tr listId rest dryRun r1.2
    (r1.1 ++ r2.1, r2.2)

/-- `syncFeature` (lines 734-804): find the list named `"{featureId}: {title}"`
in the folder, create it when absent (in dry-run, log the creation and skip
the feature's tasks), then sync every task directory. -/
def syncFeature (st : RemoteState) (tr : SpecTree)
    (folderId featureId : String) (dryRun : Bool) (ctr : Nat) :
    List Event × Nat :=
  match lookupSpec tr featureId with
  | none => ([], ctr)
  | some spec =>
    let listName := featureId ++ ": " ++ spec.title
    let taskIds := (tr.taskDirs featureId).map (fun d => featureId ++ "-" ++ d)
    match findList st folderId listName with
    | some l => syncTasksAll st tr l.rid taskIds dryRun ctr
    | none =>
      if dryRun then ([.wouldDo (.createList folderId listName)], ctr)
      else
        let lid := freshId ctr
        let r := syncTasksAll st tr lid taskIds dryRun (ctr + 1)
        (.did (.createList folderId listName) :: r.1, r.2)

/-- The `for (const featureId of featureDirs)` loop of `syncEpic` (line 729). -/
def syncFeaturesAll (st : RemoteState) (tr : SpecTree) (folderId : String)
    (featureIds : List String) (dryRun : Bool) (ctr : Nat) :
    List Event × Nat :=
  match featureIds with
  | [] => ([], ctr)
  | fid :: rest =>
    let r1 := syncFeature st tr folderId fid dryRun ctr
    let r2 := syncFeaturesAll st tr folderId rest dryRun r1.2
    (r1.1 ++ r2.1, r2.2)

/-- `syncEpic` (lines 676-732): find the folder named `"{epicId} - {title}"`
(exact match), create it when absent (in dry-run, log the creation and stop),
then sync every feature directory of the epic. -/
def syncEpic (st : RemoteState) (tr : SpecTree) (epicId : String)
    (dryRun : Bool) (ctr : Nat) : List Event × Nat :=
  match lookupSpec tr epicId with
  | none => ([], ctr)
  | some spec =>
    let folderName := epicId ++ " - " ++ spec.title
    let featureIds := (tr.featureDirs epicId).map (fun d => epicId ++ "-" ++ d)
    match findFolder st folderName with
    | some f => syncFeaturesAll st tr f.rid featureIds dryRun ctr
    | none =>
      if dryRun then ([.wouldDo (.createFolder folderName)], ctr)
      else
        let fid := freshId ctr
        let r := syncFeaturesAll st tr fid featureIds dryRun (ctr + 1)
        (.did (.createFolder folderName) :: r.1, r.2)

/-! ### Trace lemmas -/

theorem action_emit (dry : Bool) (a : Action) : (emit dry a).action = a := by
  unfold emit; split <;> rfl

theorem mem_nameEvents {e : Event} {dry : Bool} {rid en xn : String}
    (h : e ∈ nameEvents dry rid en xn) : e.action = .updateName rid xn := by
  unfold nameEvents at h
  split at h
  · rcases List.mem_singleton.mp h with rfl
    exact action_emit ..
  · exact absurd h (List.not_mem_nil e)

theorem mem_statusEvents {e : Event} {dry : Bool} {rid cur new : String}
    (h : e ∈ statusEvents dry rid cur new) :
    e.action = .updateStatus rid new := by
  unfold statusEvents at h
  split at h
  · split at h
    · exact absurd h (List.not_mem_nil e)
    · rcases List.mem_singleton.mp h with rfl
      exact action_emit ..
  · exact absurd h (List.not_mem_nil e)

/-- The six statuses strictly below `COMPLETE` in the ordinal table. -/
def belowComplete : List String :=
  ["DRAFT", "PLANNED", "BLOCKED", "IN PROGRESS", "REVIEW", "TESTING"]

theorem statusEvents_complete_below {dry : Bool} {rid next : String}
    (h : next ∈ belowComplete) : statusEvents dry rid "COMPLETE" next = [] := by
  fin_cases h <;> rfl

theorem statusEvents_self (dry : Bool) (rid s : String) :
    statusEvents dry rid s s = [] := by
  unfold statusEvents
  simp

/-- The promotion override either yields `COMPLETE` or leaves the mapped
status unchanged. -/
theorem computeTargetStatus_eq_or (tr : SpecTree) (ids : List String)
    (m : String) :
    computeTargetStatus tr ids m = "COMPLETE" ∨
      computeTargetStatus tr ids m = m := by
  unfold computeTargetStatus
  split
  · split
    · exact Or.inl rfl
    · exact Or.inr rfl
  · exact Or.inr rfl

/-- No name starts both with `"{base}:"` and with `"{base}-{d}:"`: the
character after `base` would have to be both `:` and `-`. -/
theorem no_dual_id_prefix (base d n : String)
    (h1 : jsStartsWith n (base ++ ":") = true)
    (h2 : jsStartsWith n (base ++ "-" ++ d ++ ":") = true) : False := by
  unfold jsStartsWith at h1 h2
  rw [List.isPrefixOf_iff_prefix] at h1 h2
  simp only [String.data_append] at h1 h2
  have hle : (base.data ++ [':']).length ≤
      (base.data ++ ['-'] ++ d.data ++ [':']).length := by
    simp only [List.length_append]
    omega
  have h12 := List.prefix_of_prefix_length_le h1 h2 hle
  obtain ⟨t, ht⟩ := h12
  rw [List.append_assoc, List.append_assoc, List.append_assoc] at ht
  have hcons : ([':'] ++ t) = (['-'] ++ (d.data ++ [':'])) :=
    List.append_cancel_left ht
  exact absurd (List.head_eq_of_cons_eq hcons) (by decide)

/-- Any `updateStatus` event in a `syncSubtask` trace targets the remote id of
the item that the subtask lookup found. -/
theorem syncSubtask_updateStatus_src {st : RemoteState} {tr : SpecTree}
    {listId prid sid : String} {dry : Bool} {ctr : Nat} {e : Event}
    {i s : String}
    (he : e ∈ (syncSubtask st tr listId prid sid dry ctr).1)
    (ha : e.action = .updateStatus i s) :
    ∃ ex, findSubtaskByCustomId st listId sid = some ex ∧ i = ex.rid := by
  unfold syncSubtask at he
  cases hl : lookupSpec tr sid with
  | none => rw [hl] at he; exact absurd he (List.not_mem_nil e)
  | some spec =>
    rw [hl] at he
    cases hf : findSubtaskByCustomId st listId sid with
    | some ex =>
      rw [hf] at he
      rcases List.mem_append.mp he with hn | hs
      · rw [mem_nameEvents hn] at ha; cases ha
      · have := mem_statusEvents hs
        rw [this] at ha
        cases ha
        exact ⟨ex, rfl, rfl⟩
    | none =>
      rw [hf] at he
      dsimp only at he
      by_cases hd : dry = true
      · rw [if_pos hd] at he
        rcases List.mem_singleton.mp he with rfl
        cases ha
      · rw [if_neg hd] at he
        simp only [List.mem_cons, List.not_mem_nil, or_false] at he
        rcases he with rfl | rfl | rfl <;> cases ha

/-- Fold version of `syncSubtask_updateStatus_src` over a subtask-id list. -/
theorem syncSubtasksAll_updateStatus_src {st : RemoteState} {tr : SpecTree}
    {listId prid : String} {sids : List String} {dry : Bool} {ctr : Nat}
    {e : Event} {i s : String}
    (he : e ∈ (syncSubtasksAll st tr listId prid sids dry ctr).1)
    (ha : e.action = .updateStatus i s) :
    ∃ sid ∈ sids, ∃ ex, findSubtaskByCustomId st listId sid = some ex ∧
      i = ex.rid := by
  induction sids generalizing ctr with
  | nil => exact absurd he (List.not_mem_nil e)
  | cons sid rest ih =>
    unfold syncSubtasksAll at he
    rcases List.mem_append.mp he with h1 | h2
    · obtain ⟨ex, hex, hi⟩ := syncSubtask_updateStatus_src h1 ha
      exact ⟨sid, List.mem_cons_self .., ex, hex, hi⟩
    · obtain ⟨sid', hmem, ex, hex, hi⟩ := ih h2
      exact ⟨sid', List.mem_cons_of_mem _ hmem, ex, hex, hi⟩

/-- The remote calls and file writes actually performed in a trace. -/
def didActions (evts : List Event) : List Action :=
  evts.filterMap fun e => match e with | .did a => some a | .wouldDo _ => none

/-- The would-be actions logged in a trace. -/
def loggedActions (evts : List Event) : List Action :=
  evts.filterMap fun e => match e with | .did _ => none | .wouldDo a => some a

end Sync

/-- **C7**: the item lookups return only an item whose name starts with the
searched id followed by a colon; searching `T1` among `"T1: Foo"` and
`"T10: Bar"` returns the item named `"T1: Foo"` in either list order. -/
theorem c7_prefix_disambiguation (st : Sync.RemoteState)
    (listId customId : String) (t : Sync.RTask)
    (h : Sync.findTaskByCustomId st listId customId = some t) :
    Sync.jsStartsWith t.name (customId ++ ":") = true ∧
    (∀ st' lid cid t', Sync.findSubtaskByCustomId st' lid cid = some t' →
      Sync.jsStartsWith t'.name (cid ++ ":") = true) ∧
    Sync.findTaskByCustomId Sync.prefixDemoState "l" "T1" =
      some ⟨"a1", "T1: Foo", "DRAFT"⟩ ∧
    Sync.findTaskByCustomId Sync.prefixDemoStateRev "l" "T1" =
      some ⟨"a1", "T1: Foo", "DRAFT"⟩ := by
  unfold Sync.findTaskByCustomId at h
  have h1 := List.find?_some h
  refine ⟨h1, fun st' lid cid t' h' => ?_, by decide, by decide⟩
  unfold Sync.findSubtaskByCustomId at h'
  have h2 := List.find?_some h'
  exact h2

/-- Witness for C7: the lookup in the demo list succeeds and the returned name
indeed starts with `"T1:"`. -/
theorem c7_prefix_disambiguation_witness :
    Sync.jsStartsWith "T1: Foo" ("T1" ++ ":") = true :=
  (c7_prefix_disambiguation Sync.prefixDemoState "l" "T1"
    ⟨"a1", "T1: Foo", "DRAFT"⟩ (by decide)).1

/-- **C1**: for an existing remote item whose current status is `COMPLETE` and
whose mapped source status lies strictly below `COMPLETE`, the reconciler
reports a downgrade, and none of `syncSubtask`, `syncExtension`, `syncTask`
issues (or would issue) a status-update call for that item.  For `syncTask`,
whose trace also contains the subtask recursion, the conclusion is stated for
the task's own remote id, assuming remote ids in the list identify items
uniquely. -/
theorem c1_complete_item_never_updated_down :
    (∀ next ∈ Sync.belowComplete,
      Sync.isStatusDowngrade "COMPLETE" next = true) ∧
    (∀ st tr listId prid sid spec ex dry ctr,
      Sync.lookupSpec tr sid = some spec →
      Sync.findSubtaskByCustomId st listId sid = some ex →
      ex.status = "COMPLETE" →
      Sync.mapStatusToClickUp spec.status ∈ Sync.belowComplete →
      ∀ e ∈ (Sync.syncSubtask st tr listId prid sid dry ctr).1,
        ∀ i s, e.action ≠ Sync.Action.updateStatus i s) ∧
    (∀ st tr listId prid xid spec ex dry ctr,
      Sync.lookupSpec tr xid = some spec →
      Sync.findSubtaskByCustomId st listId xid = some ex →
      ex.status = "COMPLETE" →
      Sync.mapStatusToClickUp spec.status ∈ Sync.belowComplete →
      ∀ e ∈ (Sync.syncExtension st tr listId prid xid dry ctr).1,
        ∀ i s, e.action ≠ Sync.Action.updateStatus i s) ∧
    (∀ st tr listId taskId spec ex dry ctr,
      Sync.lookupSpec tr taskId = some spec →
      Sync.findTaskByCustomId st listId taskId = some ex →
      ex.status = "COMPLETE" →
      Sync.mapStatusToClickUp spec.status ∈ Sync.belowComplete →
      (∀ t1 ∈ st.tasks listId, ∀ t2 ∈ st.tasks listId,
        t1.rid = t2.rid → t1 = t2) →
      ∀ e ∈ (Sync.syncTask st tr listId taskId dry ctr).1,
        ∀ s, e.action ≠ Sync.Action.updateStatus ex.rid s) := by
  refine ⟨?_, ?_, ?_, ?_⟩
  · intro next h; fin_cases h <;> decide
  · intro st tr listId prid sid spec ex dry ctr hspec hfind hcur hmap e he i s
    unfold Sync.syncSubtask at he
    rw [hspec, hfind] at he
    dsimp only at he
    rcases List.mem_append.mp he with hn | hs
    · rw [Sync.mem_nameEvents hn]
      exact fun h => Sync.Action.noConfusion h
    · rw [hcur, Sync.statusEvents_complete_below hmap] at hs
      exact absurd hs (List.not_mem_nil e)
  · intro st tr listId prid xid spec ex dry ctr hspec hfind hcur hmap e he i s
    unfold Sync.syncExtension at he
    rw [hspec, hfind] at he
    dsimp only at he
    rcases List.mem_append.mp he with hn | hs
    · rw [Sync.mem_nameEvents hn]
      exact fun h => Sync.Action.noConfusion h
    · rw [hcur, Sync.statusEvents_complete_below hmap] at hs
      exact absurd hs (List.not_mem_nil e)
  · intro st tr listId taskId spec ex dry ctr hspec hfind hcur hmap hinj e he s
    unfold Sync.syncTask at he
    rw [hspec, hfind] at he
    dsimp only at he
    rcases List.mem_append.mp he with hns | hst
    rcases List.mem_append.mp hns with hn | hsub
    · rw [Sync.mem_nameEvents hn]
      exact fun h => Sync.Action.noConfusion h
    · intro haction
      obtain ⟨sid, hsidmem, ex', hfind', hi⟩ :=
        Sync.syncSubtasksAll_updateStatus_src hsub haction
      obtain ⟨d, hd, hsid⟩ := List.mem_map.mp hsidmem
      have hexmem : ex ∈ st.tasks listId := by
        unfold Sync.findTaskByCustomId at hfind
        exact List.mem_of_find?_eq_some hfind
      have hexmem' : ex' ∈ st.tasks listId := by
        unfold Sync.findSubtaskByCustomId at hfind'
        exact List.mem_of_find?_eq_some hfind'
      have hexeq : ex = ex' := hinj ex hexmem ex' hexmem' hi
      have hp1 : Sync.jsStartsWith ex.name (taskId ++ ":") = true := by
        unfold Sync.findTaskByCustomId at hfind
        have := List.find?_some hfind
        exact this
      have hp2 : Sync.jsStartsWith ex.name (taskId ++ "-" ++ d ++ ":") = true := by
        unfold Sync.findSubtaskByCustomId at hfind'
        have h2 := List.find?_some hfind'
        rw [← hexeq, ← hsid] at h2
        have hstr : (taskId ++ "-" ++ d) ++ ":" = taskId ++ "-" ++ d ++ ":" := by
          apply String.ext
          simp only [String.data_append, List.append_assoc]
        rw [← hstr]
        exact h2
      exact Sync.no_dual_id_prefix taskId d ex.name hp1 hp2
    · rcases Sync.computeTargetStatus_eq_or tr
          ((tr.subtaskDirs taskId).map (fun d => taskId ++ "-" ++ d))
          (Sync.mapStatusToClickUp spec.status) with hc | hc
      · rw [hcur, hc, Sync.statusEvents_self] at hst
        exact absurd hst (List.not_mem_nil e)
      · rw [hcur, hc, Sync.statusEvents_complete_below hmap] at hst
        exact absurd hst (List.not_mem_nil e)

/-- A remote state for the C1 witness: the subtask item exists and is
`COMPLETE`. -/
def c1State : Sync.RemoteState where
  folders := []
  lists := fun _ => []
  tasks := fun l =>
    if l = "list1" then [⟨"s1", "E09-F01-T01-S01: Sub A", "COMPLETE"⟩] else []

/-- A one-subtask source tree whose subtask is `in_progress`, used to witness
C1 against the `COMPLETE` remote item of `c1State`. -/
def c1Tree : Sync.SpecTree where
  specs := [("E09-F01-T01-S01", ⟨"Sub A", "in_progress"⟩)]
  featureDirs := fun _ => []
  taskDirs := fun _ => []
  subtaskDirs := fun _ => []

/-- Witness for C1: a concrete subtask whose remote item is `COMPLETE` while
the source says `in_progress` produces no status-update event. -/
theorem c1_complete_item_never_updated_down_witness :
    ∀ e ∈ (Sync.syncSubtask c1State c1Tree
        "list1" "t1" "E09-F01-T01-S01" false 0).1,
      ∀ i s, e.action ≠ Sync.Action.updateStatus i s := by
  have h1 : Sync.lookupSpec c1Tree "E09-F01-T01-S01" =
      some ⟨"Sub A", "in_progress"⟩ := by decide
  have h2 : Sync.findSubtaskByCustomId c1State "list1" "E09-F01-T01-S01" =
      some ⟨"s1", "E09-F01-T01-S01: Sub A", "COMPLETE"⟩ := by decide
  have h3 : (Sync.RTask.mk "s1" "E09-F01-T01-S01: Sub A" "COMPLETE").status =
      "COMPLETE" := rfl
  have h4 : Sync.mapStatusToClickUp
      (Sync.SpecMeta.mk "Sub A" "in_progress").status ∈
      Sync.belowComplete := by decide
  exact c1_complete_item_never_updated_down.2.1 c1State c1Tree
    "list1" "t1" "E09-F01-T01-S01" ⟨"Sub A", "in_progress"⟩
    ⟨"s1", "E09-F01-T01-S01: Sub A", "COMPLETE"⟩ false 0 h1 h2 h3 h4

/-- **C2**: for a task that exists remotely and has at least one subtask
directory, if every subtask's spec is loaded and mapped to `COMPLETE` while the
task's own mapped status is not `COMPLETE`, the computed target status is
overridden to `COMPLETE`, and the overridden target is what the trailing
downgrade-guarded status step of `syncTask` receives; the override only ever
yields `COMPLETE` or the unmodified mapped status. -/
theorem c2_all_children_complete_promotes (st : Sync.RemoteState)
    (tr : Sync.SpecTree) (listId taskId : String) (spec : Sync.SpecMeta)
    (existing : Sync.RTask) (dryRun : Bool) (ctr : Nat)
    (hspec : Sync.lookupSpec tr taskId = some spec)
    (hfind : Sync.findTaskByCustomId st listId taskId = some existing)
    (hne : tr.subtaskDirs taskId ≠ [])
    (hall : ∀ sid ∈ (tr.subtaskDirs taskId).map (fun d => taskId ++ "-" ++ d),
      ∃ s, Sync.lookupSpec tr sid = some s ∧
        Sync.mapStatusToClickUp s.status = "COMPLETE")
    (hnotc : Sync.mapStatusToClickUp spec.status ≠ "COMPLETE") :
    Sync.computeTargetStatus tr
        ((tr.subtaskDirs taskId).map (fun d => taskId ++ "-" ++ d))
        (Sync.mapStatusToClickUp spec.status) = "COMPLETE" ∧
    (∃ pre c', Sync.syncTask st tr listId taskId dryRun ctr =
      (pre ++ Sync.statusEvents dryRun existing.rid existing.status "COMPLETE",
        c')) ∧
    (∀ tr' ids m, Sync.computeTargetStatus tr' ids m = "COMPLETE" ∨
      Sync.computeTargetStatus tr' ids m = m) := by
  have hall' : Sync.allChildrenComplete tr
      ((tr.subtaskDirs taskId).map (fun d => taskId ++ "-" ++ d)) = true := by
    unfold Sync.allChildrenComplete
    rw [List.all_eq_true]
    intro sid hmem
    obtain ⟨s, hs, hc⟩ := hall sid hmem
    rw [hs]
    simp [hc]
  have hlen : ((tr.subtaskDirs taskId).map
      (fun d => taskId ++ "-" ++ d)).length > 0 := by
    cases h : tr.subtaskDirs taskId with
    | nil => exact absurd h hne
    | cons a l => simp [h]
  have hcts : Sync.computeTargetStatus tr
      ((tr.subtaskDirs taskId).map (fun d => taskId ++ "-" ++ d))
      (Sync.mapStatusToClickUp spec.status) = "COMPLETE" := by
    unfold Sync.computeTargetStatus
    rw [if_pos hlen, if_pos ⟨hall', hnotc⟩]
  refine ⟨hcts, ?_, ?_⟩
  · refine ⟨Sync.nameEvents dryRun existing.rid existing.name
        (taskId ++ ": " ++ spec.title) ++
        (Sync.syncSubtasksAll st tr listId existing.rid
          ((tr.subtaskDirs taskId).map (fun d => taskId ++ "-" ++ d))
          dryRun ctr).1,
      (Sync.syncSubtasksAll st tr listId existing.rid
          ((tr.subtaskDirs taskId).map (fun d => taskId ++ "-" ++ d))
          dryRun ctr).2, ?_⟩
    unfold Sync.syncTask
    rw [hspec, hfind]
    simp [hcts, List.append_assoc]
  · intro tr' ids m
    unfold Sync.computeTargetStatus
    split
    · split
      · exact Or.inl rfl
      · exact Or.inr rfl
    · exact Or.inr rfl

/-- A one-task, two-subtask source tree used to witness C2: the task is
`in_progress`, its two subtasks are `complete`. -/
def c2Tree : Sync.SpecTree where
  specs :=
    [("E09-F01-T01", ⟨"Task", "in_progress"⟩),
     ("E09-F01-T01-S01", ⟨"Sub A", "complete"⟩),
     ("E09-F01-T01-S02", ⟨"Sub B", "complete"⟩)]
  featureDirs := fun _ => []
  taskDirs := fun _ => []
  subtaskDirs := fun p => if p = "E09-F01-T01" then ["S01", "S02"] else []

/-- A remote state for the C2 witness: the task and both subtasks exist with
matching names; the task is `IN PROGRESS`, the subtasks `COMPLETE`. -/
def c2State : Sync.RemoteState where
  folders := []
  lists := fun _ => []
  tasks := fun l =>
    if l = "list1" then
      [⟨"t1", "E09-F01-T01: Task", "IN PROGRESS"⟩,
       ⟨"s1", "E09-F01-T01-S01: Sub A", "COMPLETE"⟩,
       ⟨"s2", "E09-F01-T01-S02: Sub B", "COMPLETE"⟩]
    else []

/-- Witness for C2 at the concrete one-task tree. -/
theorem c2_all_children_complete_promotes_witness :
    Sync.computeTargetStatus c2Tree
        ((c2Tree.subtaskDirs "E09-F01-T01").map
          (fun d => "E09-F01-T01" ++ "-" ++ d))
        (Sync.mapStatusToClickUp "in_progress") = "COMPLETE" :=
  (c2_all_children_complete_promotes c2State c2Tree "list1" "E09-F01-T01"
    ⟨"Task", "in_progress"⟩ ⟨"t1", "E09-F01-T01: Task", "IN PROGRESS"⟩
    false 0 (by decide) (by decide) (by decide)
    (by intro sid hmem
        rw [show (c2Tree.subtaskDirs "E09-F01-T01").map
            (fun d => "E09-F01-T01" ++ "-" ++ d) =
            ["E09-F01-T01-S01", "E09-F01-T01-S02"] from by decide] at hmem
        simp only [List.mem_cons, List.not_mem_nil, or_false] at hmem
        rcases hmem with rfl | rfl
        · exact ⟨⟨"Sub A", "complete"⟩, by decide, by decide⟩
        · exact ⟨⟨"Sub B", "complete"⟩, by decide, by decide⟩)
    (by decide)).1

namespace Sync

/-! ### Dry-run analysis (for C6)

`didActions` of a dry-run trace is always empty, and when every container and
item the traversal visits is already present remotely (`epicAligned`), the
actions a dry run logs coincide with the actions a live run performs. -/

theorem didActions_append (a b : List Event) :
    didActions (a ++ b) = didActions a ++ didActions b :=
  List.filterMap_append ..

theorem loggedActions_append (a b : List Event) :
    loggedActions (a ++ b) = loggedActions a ++ loggedActions b :=
  List.filterMap_append ..

theorem didActions_nameEvents_dry (rid a b : String) :
    didActions (nameEvents true rid a b) = [] := by
  unfold nameEvents
  split <;> rfl

theorem didActions_statusEvents_dry (rid a b : String) :
    didActions (statusEvents true rid a b) = [] := by
  unfold statusEvents
  split
  · split <;> rfl
  · rfl

theorem didActions_syncSubtask_dry (st : RemoteState) (tr : SpecTree)
    (listId prid sid : String) (ctr : Nat) :
    didActions (syncSubtask st tr listId prid sid true ctr).1 = [] := by
  unfold syncSubtask
  cases lookupSpec tr sid with
  | none => rfl
  | some spec =>
    cases findSubtaskByCustomId st listId sid with
    | some ex =>
      dsimp only
      rw [didActions_append, didActions_nameEvents_dry,
        didActions_statusEvents_dry]
      rfl
    | none => rfl

theorem didActions_syncSubtasksAll_dry (st : RemoteState) (tr : SpecTree)
    (listId prid : String) (sids : List String) (ctr : Nat) :
    didActions (syncSubtasksAll st tr listId prid sids true ctr).1 = [] := by
  induction sids generalizing ctr with
  | nil => rfl
  | cons sid rest ih =>
    unfold syncSubtasksAll
    dsimp only
    rw [didActions_append, didActions_syncSubtask_dry, ih]
    rfl

theorem didActions_syncTask_dry (st : RemoteState) (tr : SpecTree)
    (listId taskId : String) (ctr : Nat) :
    didActions (syncTask st tr listId taskId true ctr).1 = [] := by
  unfold syncTask
  cases lookupSpec tr taskId with
  | none => rfl
  | some spec =>
    cases findTaskByCustomId st listId taskId with
    | some ex =>
      dsimp only
      rw [didActions_append, didActions_append, didActions_nameEvents_dry,
        didActions_syncSubtasksAll_dry, didActions_statusEvents_dry]
      rfl
    | none => rfl

theorem didActions_syncTasksAll_dry (st : RemoteState) (tr : SpecTree)
    (listId : String) (tids : List String) (ctr : Nat) :
    didActions (syncTasksAll st tr listId tids true ctr).1 = [] := by
  induction tids generalizing ctr with
  | nil => rfl
  | cons tid rest ih =>
    unfold syncTasksAll
    dsimp only
    rw [didActions_append, didActions_syncTask_dry, ih]
    rfl

theorem didActions_syncFeature_dry (st : RemoteState) (tr : SpecTree)
    (folderId fid : String) (ctr : Nat) :
    didActions (syncFeature st tr folderId fid true ctr).1 = [] := by
  unfold syncFeature
  cases lookupSpec tr fid with
  | none => rfl
  | some spec =>
    dsimp only
    cases findList st folderId (fid ++ ": " ++ spec.title) with
    | some l => exact didActions_syncTasksAll_dry ..
    | none => rfl

theorem didActions_syncFeaturesAll_dry (st : RemoteState) (tr : SpecTree)
    (folderId : String) (fids : List String) (ctr : Nat) :
    didActions (syncFeaturesAll st tr folderId fids true ctr).1 = [] := by
  induction fids generalizing ctr with
  | nil => rfl
  | cons fid rest ih =>
    unfold syncFeaturesAll
    dsimp only
    rw [didActions_append, didActions_syncFeature_dry, ih]
    rfl

theorem didActions_syncEpic_dry (st : RemoteState) (tr : SpecTree)
    (eid : String) (ctr : Nat) :
    didActions (syncEpic st tr eid true ctr).1 = [] := by
  unfold syncEpic
  cases lookupSpec tr eid with
  | none => rfl
  | some spec =>
    dsimp only
    cases findFolder st (eid ++ " - " ++ spec.title) with
    | some f => exact didActions_syncFeaturesAll_dry ..
    | none => rfl

/-- The spec for the subtask id is either missing (both modes skip it) or its
remote item is found. -/
def subtaskAligned (st : RemoteState) (tr : SpecTree) (listId sid : String) :
    Bool :=
  match lookupSpec tr sid with
  | none => true
  | some _ => (findSubtaskByCustomId st listId sid).isSome

/-- The task and (recursively) all its subtask directories are aligned. -/
def taskAligned (st : RemoteState) (tr : SpecTree) (listId taskId : String) :
    Bool :=
  match lookupSpec tr taskId with
  | none => true
  | some _ =>
    (findTaskByCustomId st listId taskId).isSome &&
      ((tr.subtaskDirs taskId).map (fun d => taskId ++ "-" ++ d)).all
        (subtaskAligned st tr listId)

/-- The feature's list is found and all its task directories are aligned. -/
def featureAligned (st : RemoteState) (tr : SpecTree)
    (folderId fid : String) : Bool :=
  match lookupSpec tr fid with
  | none => true
  | some spec =>
    match findList st folderId (fid ++ ": " ++ spec.title) with
    | none => false
    | some l =>
      ((tr.taskDirs fid).map (fun d => fid ++ "-" ++ d)).all
        (taskAligned st tr l.rid)

/-- The epic's folder is found and all its feature directories are aligned. -/
def epicAligned (st : RemoteState) (tr : SpecTree) (eid : String) : Bool :=
  match lookupSpec tr eid with
  | none => true
  | some spec =>
    match findFolder st (eid ++ " - " ++ spec.title) with
    | none => false
    | some f =>
      ((tr.featureDirs eid).map (fun d => eid ++ "-" ++ d)).all
        (featureAligned st tr f.rid)

theorem loggedActions_nameEvents_eq (rid a b : String) :
    loggedActions (nameEvents true rid a b) =
      didActions (nameEvents false rid a b) := by
  unfold nameEvents
  split <;> rfl

theorem loggedActions_statusEvents_eq (rid a b : String) :
    loggedActions (statusEvents true rid a b) =
      didActions (statusEvents false rid a b) := by
  unfold statusEvents
  split
  · split <;> rfl
  · rfl

theorem syncSubtask_aligned (st : RemoteState) (tr : SpecTree)
    (listId prid sid : String) (ctr : Nat)
    (h : subtaskAligned st tr listId sid = true) :
    loggedActions (syncSubtask st tr listId prid sid true ctr).1 =
      didActions (syncSubtask st tr listId prid sid false ctr).1 ∧
    (syncSubtask st tr listId prid sid true ctr).2 = ctr ∧
    (syncSubtask st tr listId prid sid false ctr).2 = ctr := by
  unfold subtaskAligned at h
  unfold syncSubtask
  cases hl : lookupSpec tr sid with
  | none => exact ⟨rfl, rfl, rfl⟩
  | some spec =>
    rw [hl] at h
    cases hf : findSubtaskByCustomId st listId sid with
    | none => rw [hf] at h; cases h
    | some ex =>
      dsimp only
      rw [loggedActions_append, didActions_append,
        loggedActions_nameEvents_eq, loggedActions_statusEvents_eq]
      exact ⟨rfl, rfl, rfl⟩

theorem syncSubtasksAll_aligned (st : RemoteState) (tr : SpecTree)
    (listId prid : String) (sids : List String) (ctr : Nat)
    (h : ∀ sid ∈ sids, subtaskAligned st tr listId sid = true) :
    loggedActions (syncSubtasksAll st tr listId prid sids true ctr).1 =
      didActions (syncSubtasksAll st tr listId prid sids false ctr).1 ∧
    (syncSubtasksAll st tr listId prid sids true ctr).2 = ctr ∧
    (syncSubtasksAll st tr listId prid sids false ctr).2 = ctr := by
  induction sids generalizing ctr with
  | nil => exact ⟨rfl, rfl, rfl⟩
  | cons sid rest ih =>
    have h1 := syncSubtask_aligned st tr listId prid sid ctr
      (h sid (List.mem_cons_self ..))
    have h2 := ih ctr (fun s hs => h s (List.mem_cons_of_mem _ hs))
    unfold syncSubtasksAll
    dsimp only
    rw [h1.2.1, h1.2.2, loggedActions_append, didActions_append,
      h1.1, h2.1]
    exact ⟨rfl, h2.2.1, h2.2.2⟩

theorem syncTask_aligned (st : RemoteState) (tr : SpecTree)
    (listId taskId : String) (ctr : Nat)
    (h : taskAligned st tr listId taskId = true) :
    loggedActions (syncTask st tr listId taskId true ctr).1 =
      didActions (syncTask st tr listId taskId false ctr).1 ∧
    (syncTask st tr listId taskId true ctr).2 = ctr ∧
    (syncTask st tr listId taskId false ctr).2 = ctr := by
  unfold taskAligned at h
  unfold syncTask
  cases hl : lookupSpec tr taskId with
  | none => exact ⟨rfl, rfl, rfl⟩
  | some spec =>
    rw [hl] at h
    rw [Bool.and_eq_true] at h
    cases hf : findTaskByCustomId st listId taskId with
    | none => rw [hf] at h; cases h.1
    | some ex =>
      have hsub := syncSubtasksAll_aligned st tr listId ex.rid
        ((tr.subtaskDirs taskId).map (fun d => taskId ++ "-" ++ d)) ctr
        (by intro s hs; exact List.all_eq_true.mp h.2 s hs)
      dsimp only
      rw [loggedActions_append, didActions_append, loggedActions_append,
        didActions_append, loggedActions_nameEvents_eq,
        loggedActions_statusEvents_eq, hsub.1, hsub.2.1, hsub.2.2]
      exact ⟨rfl, rfl, rfl⟩

theorem syncTasksAll_aligned (st : RemoteState) (tr : SpecTree)
    (listId : String) (tids : List String) (ctr : Nat)
    (h : ∀ tid ∈ tids, taskAligned st tr listId tid = true) :
    loggedActions (syncTasksAll st tr listId tids true ctr).1 =
      didActions (syncTasksAll st tr listId tids false ctr).1 ∧
    (syncTasksAll st tr listId tids true ctr).2 = ctr ∧
    (syncTasksAll st tr listId tids false ctr).2 = ctr := by
  induction tids generalizing ctr with
  | nil => exact ⟨rfl, rfl, rfl⟩
  | cons tid rest ih =>
    have h1 := syncTask_aligned st tr listId tid ctr
      (h tid (List.mem_cons_self ..))
    have h2 := ih ctr (fun t ht => h t (List.mem_cons_of_mem _ ht))
    unfold syncTasksAll
    dsimp only
    rw [h1.2.1, h1.2.2, loggedActions_append, didActions_append, h1.1, h2.1]
    exact ⟨rfl, h2.2.1, h2.2.2⟩

theorem syncFeature_aligned (st : RemoteState) (tr : SpecTree)
    (folderId fid : String) (ctr : Nat)
    (h : featureAligned st tr folderId fid = true) :
    loggedActions (syncFeature st tr folderId fid true ctr).1 =
      didActions (syncFeature st tr folderId fid false ctr).1 ∧
    (syncFeature st tr folderId fid true ctr).2 = ctr ∧
    (syncFeature st tr folderId fid false ctr).2 = ctr := by
  unfold featureAligned at h
  unfold syncFeature
  cases hl : lookupSpec tr fid with
  | none => exact ⟨rfl, rfl, rfl⟩
  | some spec =>
    rw [hl] at h
    dsimp only at h ⊢
    cases hf : findList st folderId (fid ++ ": " ++ spec.title) with
    | none => rw [hf] at h; cases h
    | some l =>
      rw [hf] at h
      dsimp only at h ⊢
      exact syncTasksAll_aligned st tr l.rid _ ctr
        (by intro t ht; exact List.all_eq_true.mp h t ht)

theorem syncFeaturesAll_aligned (st : RemoteState) (tr : SpecTree)
    (folderId : String) (fids : List String) (ctr : Nat)
    (h : ∀ fid ∈ fids, featureAligned st tr folderId fid = true) :
    loggedActions (syncFeaturesAll st tr folderId fids true ctr).1 =
      didActions (syncFeaturesAll st tr folderId fids false ctr).1 ∧
    (syncFeaturesAll st tr folderId fids true ctr).2 = ctr ∧
    (syncFeaturesAll st tr folderId fids false ctr).2 = ctr := by
  induction fids generalizing ctr with
  | nil => exact ⟨rfl, rfl, rfl⟩
  | cons fid rest ih =>
    have h1 := syncFeature_aligned st tr folderId fid ctr
      (h fid (List.mem_cons_self ..))
    have h2 := ih ctr (fun f hf => h f (List.mem_cons_of_mem _ hf))
    unfold syncFeaturesAll
    dsimp only
    rw [h1.2.1, h1.2.2, loggedActions_append, didActions_append, h1.1, h2.1]
    exact ⟨rfl, h2.2.1, h2.2.2⟩

theorem syncEpic_aligned (st : RemoteState) (tr : SpecTree) (eid : String)
    (ctr : Nat) (h : epicAligned st tr eid = true) :
    loggedActions (syncEpic st tr eid true ctr).1 =
      didActions (syncEpic st tr eid false ctr).1 := by
  unfold epicAligned at h
  unfold syncEpic
  cases hl : lookupSpec tr eid with
  | none => rfl
  | some spec =>
    rw [hl] at h
    dsimp only at h ⊢
    cases hf : findFolder st (eid ++ " - " ++ spec.title) with
    | none => rw [hf] at h; cases h
    | some f =>
      rw [hf] at h
      dsimp only at h ⊢
      exact (syncFeaturesAll_aligned st tr f.rid _ ctr
        (by intro fe hfe; exact List.all_eq_true.mp h fe hfe)).1

end Sync

/-! ### The C3 end-to-end scenario: epic `E02`, feature `E02-F01`, task
`E02-F01-T01` (`in_progress`) with subtasks `S01`, `S02` (both `complete`). -/

/-- The C3 source tree. -/
def c3Tree : Sync.SpecTree where
  specs :=
    [("E02", ⟨"Epic Two", "planned"⟩),
     ("E02-F01", ⟨"Feature One", "planned"⟩),
     ("E02-F01-T01", ⟨"Task One", "in_progress"⟩),
     ("E02-F01-T01-S01", ⟨"Sub One", "complete"⟩),
     ("E02-F01-T01-S02", ⟨"Sub Two", "complete"⟩)]
  featureDirs := fun e => if e = "E02" then ["F01"] else []
  taskDirs := fun f => if f = "E02-F01" then ["T01"] else []
  subtaskDirs := fun t => if t = "E02-F01-T01" then ["S01", "S02"] else []

/-- An empty remote workspace: nothing from the scenario exists yet. -/
def c3EmptyState : Sync.RemoteState where
  folders := []
  lists := fun _ => []
  tasks := fun _ => []

/-- The trace a live first run of `syncEpic` produces on the C3 scenario. -/
def c3LiveTrace : List Sync.Event :=
  [.did (.createFolder "E02 - Epic Two"),
   .did (.createList "new0" "E02-F01: Feature One"),
   .did (.createTask "new1" "E02-F01-T01: Task One" "IN PROGRESS"),
   .did (.writeBack "E02-F01-T01" "new2"),
   .did (.createTask "new1" "E02-F01-T01-S01: Sub One" "COMPLETE"),
   .did (.setParent "new3" "new2"),
   .did (.writeBack "E02-F01-T01-S01" "new3"),
   .did (.createTask "new1" "E02-F01-T01-S02: Sub Two" "COMPLETE"),
   .did (.setParent "new4" "new2"),
   .did (.writeBack "E02-F01-T01-S02" "new4")]

/-- Whether an event is a status update (performed or logged). -/
def isStatusUpdateEvent (e : Sync.Event) : Bool :=
  match e.action with
  | .updateStatus _ _ => true
  | _ => false

/-- The remote workspace after the first run: folder, list, task
(`IN PROGRESS`) and both subtasks (`COMPLETE`) exist with their canonical
names. -/
def c3SecondState : Sync.RemoteState where
  folders := [⟨"f1", "E02 - Epic Two"⟩]
  lists := fun f => if f = "f1" then [⟨"l1", "E02-F01: Feature One"⟩] else []
  tasks := fun l =>
    if l = "l1" then
      [⟨"t1", "E02-F01-T01: Task One", "IN PROGRESS"⟩,
       ⟨"s1", "E02-F01-T01-S01: Sub One", "COMPLETE"⟩,
       ⟨"s2", "E02-F01-T01-S02: Sub Two", "COMPLETE"⟩]
    else []

/-- **C3, counterexample**: on the fresh scenario the live run creates the
folder, the list, the task and the two subtasks — but its trace contains no
status-update event at all: the promotion-after-recursion update of the newly
created `T01` item that the claim asserts does not happen (promotion lives
only in the task-already-exists branch of `syncTask`). -/
theorem c3_end_to_end_counterexample :
    (Sync.syncEpic c3EmptyState c3Tree "E02" false 0).1 = c3LiveTrace ∧
    c3LiveTrace.all (fun e => !isStatusUpdateEvent e) = true := by
  constructor
  · decide
  · decide

/-- **C3, amended**: the live first run on the fresh scenario creates, in
order, the folder `"E02 - Epic Two"`, the list `"E02-F01: Feature One"`, the
task item with status `IN PROGRESS` (followed by its write-back), then the two
subtask items with status `COMPLETE` (each followed by its parent link and
write-back), and issues no status update for the new `T01` item in that run;
the promotion to `COMPLETE` is issued by the next run, when the task item
already exists remotely. -/
theorem c3_end_to_end_amended :
    Sync.syncEpic c3EmptyState c3Tree "E02" false 0 = (c3LiveTrace, 5) ∧
    Sync.syncEpic c3SecondState c3Tree "E02" false 0 =
      ([.did (.updateStatus "t1" "COMPLETE")], 0) := by
  constructor
  · decide
  · decide

/-- **C6, counterexample**: on the fresh C3 scenario, the dry run stops after
logging the folder creation, so the sequence of create/update actions it logs
is not the sequence the live run executes — the claimed exact-equality of the
two sequences fails as soon as a container is absent. -/
theorem c6_dry_run_preview_counterexample :
    (Sync.syncEpic c3EmptyState c3Tree "E02" true 0).1 =
      [.wouldDo (.createFolder "E02 - Epic Two")] ∧
    Sync.loggedActions (Sync.syncEpic c3EmptyState c3Tree "E02" true 0).1 ≠
      Sync.didActions (Sync.syncEpic c3EmptyState c3Tree "E02" false 0).1 := by
  constructor
  · decide
  · decide

/-- **C6, amended**: a dry run performs no create/update call and no
write-back, for every source tree and remote state; and whenever every
container and item visited by the traversal already exists remotely
(`epicAligned`), the dry run logs exactly the action sequence the live run
executes, in the same order.  When something is absent, the dry run logs its
creation but skips the dependent subtree, so its log may omit actions the
live run would perform. -/
theorem c6_dry_run_preview_amended :
    (∀ st tr eid ctr, Sync.didActions (Sync.syncEpic st tr eid true ctr).1 = []) ∧
    (∀ st tr eid ctr, Sync.epicAligned st tr eid = true →
      Sync.loggedActions (Sync.syncEpic st tr eid true ctr).1 =
        Sync.didActions (Sync.syncEpic st tr eid false ctr).1) :=
  ⟨fun st tr eid ctr => Sync.didActions_syncEpic_dry st tr eid ctr,
   fun st tr eid ctr h => Sync.syncEpic_aligned st tr eid ctr h⟩

/-- Witness for the amended C6: on the fully-present second-run state of the
C3 scenario, the dry run logs exactly the one status update the live run
performs. -/
theorem c6_dry_run_preview_amended_witness :
    Sync.didActions (Sync.syncEpic c3SecondState c3Tree "E02" true 0).1 = [] ∧
    Sync.loggedActions (Sync.syncEpic c3SecondState c3Tree "E02" true 0).1 =
      Sync.didActions (Sync.syncEpic c3SecondState c3Tree "E02" false 0).1 :=
  ⟨c6_dry_run_preview_amended.1 c3SecondState c3Tree "E02" 0,
   c6_dry_run_preview_amended.2 c3SecondState c3Tree "E02" 0 (by decide)⟩

/-- **C8**: `isStatusDowngrade` is `false` whenever either argument is
`CANCELLED` (in particular for `(COMPLETE, CANCELLED)` and
`(CANCELLED, DRAFT)`), and on every other pair drawn from the eight-status
vocabulary it is `true` exactly when the current ordinal strictly exceeds the
next ordinal under the table `DRAFT = 1 … COMPLETE = 7`. -/
theorem c8_cancellation_exemption_and_ordinal_rule (c n : String)
    (hc : c ∈ Sync.statusKeys) (hn : n ∈ Sync.statusKeys) :
    Sync.isStatusDowngrade "COMPLETE" "CANCELLED" = false ∧
    Sync.isStatusDowngrade "CANCELLED" "DRAFT" = false ∧
    (c = "CANCELLED" ∨ n = "CANCELLED" → Sync.isStatusDowngrade c n = false) ∧
    (c ≠ "CANCELLED" → n ≠ "CANCELLED" →
      (Sync.isStatusDowngrade c n = true ↔
        Sync.getStatusPriority c > Sync.getStatusPriority n)) ∧
    Sync.getStatusPriority "DRAFT" = 1 ∧
    Sync.getStatusPriority "PLANNED" = 2 ∧
    Sync.getStatusPriority "BLOCKED" = 3 ∧
    Sync.getStatusPriority "IN PROGRESS" = 4 ∧
    Sync.getStatusPriority "REVIEW" = 5 ∧
    Sync.getStatusPriority "TESTING" = 6 ∧
    Sync.getStatusPriority "COMPLETE" = 7 := by
  simp only [Sync.statusKeys, List.mem_cons, List.not_mem_nil, or_false] at hc hn
  rcases hc with rfl | rfl | rfl | rfl | rfl | rfl | rfl | rfl <;>
    rcases hn with rfl | rfl | rfl | rfl | rfl | rfl | rfl | rfl <;> decide

/-- Witness for C8 at the pair `(COMPLETE, CANCELLED)`. -/
theorem c8_cancellation_exemption_and_ordinal_rule_witness :
    Sync.isStatusDowngrade "COMPLETE" "CANCELLED" = false ∧
    Sync.isStatusDowngrade "CANCELLED" "DRAFT" = false :=
  ⟨(c8_cancellation_exemption_and_ordinal_rule "COMPLETE" "CANCELLED"
      (by decide) (by decide)).1,
   (c8_cancellation_exemption_and_ordinal_rule "COMPLETE" "CANCELLED"
      (by decide) (by decide)).2.1⟩

/-- **C10**: every string that is not one of the eight exact uppercase keys has
ordinal `0` (the ordinal of `CANCELLED`), so an unrecognized current status is
never reported as a downgrade, whatever the new status is. -/
theorem c10_unrecognized_status_never_blocks (s : String)
    (h : s ∉ Sync.statusKeys) :
    Sync.getStatusPriority s = 0 ∧
    Sync.getStatusPriority s = Sync.getStatusPriority "CANCELLED" ∧
    ∀ next, Sync.isStatusDowngrade s next = false := by
  have h0 := Sync.getStatusPriority_eq_zero_of_not_key s h
  refine ⟨h0, by rw [h0]; decide, ?_⟩
  intro next
  unfold Sync.isStatusDowngrade
  by_cases hs : s = "CANCELLED" <;> by_cases hnx : next = "CANCELLED"
  · simp [hs]
  · simp [hs]
  · simp [hnx]
  · simp only [hs, hnx, Bool.or_self, if_neg]
    simp [h0]

/-- Witness for C10 at the title-case string `"Complete"`, which differs from
the key `COMPLETE` only in letter case. -/
theorem c10_unrecognized_status_never_blocks_witness :
    Sync.getStatusPriority "Complete" = 0 ∧
    Sync.isStatusDowngrade "Complete" "DRAFT" = false :=
  ⟨(c10_unrecognized_status_never_blocks "Complete" (by decide)).1,
   (c10_unrecognized_status_never_blocks "Complete" (by decide)).2.2 "DRAFT"⟩

namespace Sync

/-! ## Remote client error handling (for C5)

The repository contains two axios client classes.  The migration client
(`create-worktrees-from-ready-tasks.sh`, lines 252-300) installs a response
interceptor that, on a 429 response whose request is not yet marked
`_retry`, marks it, waits `retry-after` seconds (defaulting to `'60'` when the
header is absent) and re-issues the same request once; any further error —
including a second 429, now marked `_retry` — is rejected to the caller.  The
sync engine's client (`sync-specs-to-clickup.ts`, lines 159-186) installs only
the request-spacing interceptor and no response interceptor: every error,
throttling included, propagates immediately.

A call is modelled as a function from the attempt number to the outcome the
server produces for that attempt. -/

/-- The outcome the server produces for one attempt of a call. -/
inductive CallOutcome (α : Type) where
  | success (v : α)
  | throttled (retryAfter : Option Nat)
  | transportError (code : Nat)
  deriving DecidableEq, Repr

/-- What the caller finally observes. -/
inductive CallFinal (α : Type) where
  | ok (v : α)
  | errThrottled
  | errTransport (code : Nat)
  deriving DecidableEq, Repr

/-- `parseInt(error.response.headers['retry-after'] || '60', 10)`. -/
def retryAfterSeconds (hint : Option Nat) : Nat := hint.getD 60

/-- The migration client's behaviour for one call: final result plus the list
of retry-wait durations (in seconds) that were honoured. -/
def requestWithRetry {α : Type} (call : Nat → CallOutcome α) :
    CallFinal α × List Nat :=
  match call 0 with
  | .success v => (.ok v, [])
  | .transportError c => (.errTransport c, [])
  | .throttled hint =>
    let w := retryAfterSeconds hint
    match call 1 with
    | .success v => (.ok v, [w])
    | .transportError c => (.errTransport c, [w])
    | .throttled _ => (.errThrottled, [w])

/-- The sync engine's client for one call: no response interceptor, so the
first outcome is final and no retry wait ever happens. -/
def requestNoRetry {α : Type} (call : Nat → CallOutcome α) :
    CallFinal α × List Nat :=
  match call 0 with
  | .success v => (.ok v, [])
  | .transportError c => (.errTransport c, [])
  | .throttled _ => (.errThrottled, [])

end Sync

/-- **C5, counterexample**: the sync engine's client does not retry on a
throttling response: a call that is throttled propagates immediately with no
retry wait, not after one 60-second-default retry as the claim requires of
every remote call. -/
theorem c5_throttle_retry_counterexample :
    Sync.requestNoRetry (fun _ => Sync.CallOutcome.throttled (α := Nat) none) =
      (.errThrottled, []) ∧
    (Sync.requestNoRetry
        (fun _ => Sync.CallOutcome.throttled (α := Nat) none)).2 ≠
      [Sync.retryAfterSeconds none] := by
  constructor
  · rfl
  · decide

/-- **C5, amended**: the retry-once-on-throttle discipline (wait the
retry-after hint, defaulting to 60 seconds; exactly one retry; a second
throttle, and any transport error, propagates) holds for the migration
client's interceptor; the sync engine's own client performs no throttle retry
at all: every outcome is final on the first attempt, with no retry wait. -/
theorem c5_throttle_retry_amended {α : Type} (call : Nat → Sync.CallOutcome α) :
    (∀ v, call 0 = .success v → Sync.requestWithRetry call = (.ok v, [])) ∧
    (∀ c, call 0 = .transportError c →
      Sync.requestWithRetry call = (.errTransport c, [])) ∧
    (∀ hint, call 0 = .throttled hint →
      (Sync.requestWithRetry call).2 = [Sync.retryAfterSeconds hint] ∧
      (∀ v, call 1 = .success v → (Sync.requestWithRetry call).1 = .ok v) ∧
      (∀ c, call 1 = .transportError c →
        (Sync.requestWithRetry call).1 = .errTransport c) ∧
      (∀ hint2, call 1 = .throttled hint2 →
        (Sync.requestWithRetry call).1 = .errThrottled)) ∧
    ((Sync.requestNoRetry call).2 = [] ∧
      (∀ v, call 0 = .success v → Sync.requestNoRetry call = (.ok v, [])) ∧
      (∀ c, call 0 = .transportError c →
        Sync.requestNoRetry call = (.errTransport c, [])) ∧
      (∀ hint, call 0 = .throttled hint →
        Sync.requestNoRetry call = (.errThrottled, []))) := by
  refine ⟨fun v hv => ?_, fun c hc => ?_, fun hint hh => ⟨?_, fun v hv => ?_,
    fun c hc => ?_, fun hint2 hh2 => ?_⟩, ?_, fun v hv => ?_, fun c hc => ?_,
    fun hint hh => ?_⟩
  · unfold Sync.requestWithRetry; rw [hv]
  · unfold Sync.requestWithRetry; rw [hc]
  · unfold Sync.requestWithRetry
    rw [hh]
    cases h1 : call 1 <;> rfl
  · unfold Sync.requestWithRetry
    rw [hh, hv]
  · unfold Sync.requestWithRetry
    rw [hh, hc]
  · unfold Sync.requestWithRetry
    rw [hh, hh2]
  · unfold Sync.requestNoRetry
    cases h0 : call 0 <;> rfl
  · unfold Sync.requestNoRetry; rw [hv]
  · unfold Sync.requestNoRetry; rw [hc]
  · unfold Sync.requestNoRetry; rw [hh]


/-- A concrete call: throttled (retry-after 5s) on the first attempt, then
successful. -/
def c5DemoCall : Nat → Sync.CallOutcome Nat :=
  fun n => if n = 0 then .throttled (some 5) else .success 42

/-- Witness for the amended C5: the throttled-then-successful call waits the
5-second hint once and succeeds on its single retry. -/
theorem c5_throttle_retry_amended_witness :
    (Sync.requestWithRetry c5DemoCall).2 = [Sync.retryAfterSeconds (some 5)] ∧
    (Sync.requestWithRetry c5DemoCall).1 = .ok 42 :=
  ⟨((c5_throttle_retry_amended c5DemoCall).2.2.1 (some 5) rfl).1,
   ((c5_throttle_retry_amended c5DemoCall).2.2.1 (some 5) rfl).2.1 42 rfl⟩

namespace Sync

/-! ## Write-back mutator (`updateSpecFileWithTaskId`,
sync-specs-to-clickup.ts lines 509-585)

The function reads the spec file, bails out when the regular expression
`clickup_task_id:\s*'([^']+)'` finds a first match whose group trims to a
non-empty string, and otherwise splits the content on `'\n'`, replaces the
first line matching `^clickup_task_id:` with `clickup_task_id: '<id>'` — or,
when no such line exists, inserts that line right after the first line
matching `^id:\s+` — and writes the re-joined lines back.  File contents are
modelled as `List Char`; the path resolution and the not-found / no-`id:`-line
error logging around the transformation are I/O and sit outside the model. -/

/-- The apostrophe (codepoint 39) used to quote the written id. -/
def quoteChar : Char := Char.ofNat 39

/-- The regex character class `[^']`. -/
def notQuote (c : Char) : Bool := c ≠ quoteChar

/-- A whitespace character, as matched by the regex class `\s` (the header
fields involved are ASCII). -/
def isWsChar (c : Char) : Bool := c.isWhitespace

/-- The literal `clickup_task_id:`\. -/
def litKey : List Char := "clickup_task_id:".data

/-- Matches `\s*'([^']+)'` at the start of `cs`, returning the group.  The
regex is deterministic here: `\s*` must stop exactly at the quote and
`([^']+)` exactly before the closing quote, so greedy scanning without
backtracking is faithful. -/
def matchQuoted (cs : List Char) : Option (List Char) :=
  match cs.dropWhile isWsChar with
  | [] => none
  | q :: rest =>
    if q = quoteChar then
      let grp := rest.takeWhile notQuote
      if grp.isEmpty then none
      else if (rest.dropWhile notQuote).isEmpty then none
      else some grp
    else none

/-- Matches the whole regex at the start of `cs`. -/
def matchAt (cs : List Char) : Option (List Char) :=
  if litKey.isPrefixOf cs then matchQuoted (cs.drop litKey.length) else none

/-- `content.match(/clickup_task_id:\s*'([^']+)'/)`: the group of the leftmost
match, scanning position by position. -/
def findExistingId : List Char → Option (List Char)
  | [] => none
  | c :: rest =>
    match matchAt (c :: rest) with
    | some g => some g
    | none => findExistingId rest

/-- JavaScript `String.prototype.trim`. -/
def jsTrim (cs : List Char) : List Char :=
  ((cs.dropWhile isWsChar).reverse.dropWhile isWsChar).reverse

/-- `content.split('\n')` (JS semantics: the empty string yields one empty
line). -/
def splitLines : List Char → List (List Char)
  | [] => [[]]
  | c :: rest =>
    if c = '\n' then [] :: splitLines rest
    else
      match splitLines rest with
      | [] => [[c]]
      | l :: ls => (c :: l) :: ls

/-- `lines.join('\n')`. -/
def joinLines : List (List Char) → List Char
  | [] => []
  | [l] => l
  | l :: ls => l ++ '\n' :: joinLines ls

/-- A line matching `^clickup_task_id:`. -/
def isClickupIdLine (l : List Char) : Bool := litKey.isPrefixOf l

/-- A line matching `^id:\s+`. -/
def isIdLine (l : List Char) : Bool :=
  ("id:".data).isPrefixOf l &&
    (match l.drop 3 with
     | c :: _ => isWsChar c
     | [] => false)

/-- The line written for a task id: `clickup_task_id: '<tid>'`. -/
def newIdLine (tid : List Char) : List Char :=
  "clickup_task_id: ".data ++ quoteChar :: (tid ++ [quoteChar])

/-- Replace the first `^clickup_task_id:` line, or fail. -/
def replaceClickupLine (tid : List Char) :
    List (List Char) → Option (List (List Char))
  | [] => none
  | l :: ls =>
    if isClickupIdLine l then some (newIdLine tid :: ls)
    else (replaceClickupLine tid ls).map (fun ls2 => l :: ls2)

/-- Insert the new line right after the first `^id:\s+` line, or fail. -/
def insertAfterIdLine (tid : List Char) :
    List (List Char) → Option (List (List Char))
  | [] => none
  | l :: ls =>
    if isIdLine l then some (l :: newIdLine tid :: ls)
    else (insertAfterIdLine tid ls).map (fun ls2 => l :: ls2)

/-- The observable result of the write-back on a file's content. -/
inductive UpdateOutcome where
  | alreadySet (existing : List Char)
  | written (newContent : List Char)
  | noIdLine
  deriving DecidableEq, Repr

/-- The content transformation of `updateSpecFileWithTaskId`. -/
def updateSpecContent (content tid : List Char) : UpdateOutcome :=
  let proceed :=
    let lines := splitLines content
    match replaceClickupLine tid lines with
    | some ls => UpdateOutcome.written (joinLines ls)
    | none =>
      match insertAfterIdLine tid lines with
      | some ls => UpdateOutcome.written (joinLines ls)
      | none => UpdateOutcome.noIdLine
  match findExistingId content with
  | some g => if (jsTrim g).isEmpty then proceed else .alreadySet g
  | none => proceed

/-- Whether `pat` occurs contiguously anywhere in a character list. -/
def occursIn (pat : List Char) : List Char → Bool
  | [] => pat.isEmpty
  | c :: rest => pat.isPrefixOf (c :: rest) || occursIn pat rest

end Sync

namespace Sync

/-! ### Line-level facts about the write-back transformation (for C9, C4) -/

theorem splitLines_ne_nil (cs : List Char) : splitLines cs ≠ [] := by
  cases cs with
  | nil => simp [splitLines]
  | cons c rest =>
    unfold splitLines
    split
    · simp
    · cases h : splitLines rest <;> simp

theorem splitLines_head (cs : List Char) {hd : List Char}
    {tl : List (List Char)} (h : splitLines cs = hd :: tl) :
    ∃ v, cs = hd ++ v ∧ '\n' ∉ hd := by
  induction cs generalizing hd tl with
  | nil =>
    unfold splitLines at h
    injection h with h1 h2
    subst h1
    exact ⟨[], rfl, by simp⟩
  | cons c rest ih =>
    unfold splitLines at h
    split at h
    case isTrue hc =>
      injection h with h1 h2
      subst h1
      exact ⟨c :: rest, rfl, by simp⟩
    case isFalse hc =>
      cases hs : splitLines rest with
      | nil => exact absurd hs (splitLines_ne_nil rest)
      | cons l ls =>
        rw [hs] at h
        injection h with h1 h2
        subst h1
        obtain ⟨v, hv, hnl⟩ := ih hs
        refine ⟨v, by rw [hv]; rfl, ?_⟩
        intro hmem
        rcases List.mem_cons.mp hmem with he | hm
        · exact hc he.symm
        · exact hnl hm

theorem mem_splitLines {cs l : List Char} (h : l ∈ splitLines cs) :
    (∃ u v, cs = u ++ l ++ v) ∧ '\n' ∉ l := by
  induction cs generalizing l with
  | nil =>
    unfold splitLines at h
    rcases List.mem_singleton.mp h with rfl
    exact ⟨⟨[], [], rfl⟩, by simp⟩
  | cons c rest ih =>
    unfold splitLines at h
    split at h
    case isTrue hc =>
      subst hc
      rcases List.mem_cons.mp h with rfl | hm
      · exact ⟨⟨[], '\n' :: rest, rfl⟩, by simp⟩
      · obtain ⟨⟨u, v, huv⟩, hnl⟩ := ih hm
        exact ⟨⟨'\n' :: u, v, by rw [huv]; rfl⟩, hnl⟩
    case isFalse hc =>
      cases hs : splitLines rest with
      | nil => exact absurd hs (splitLines_ne_nil rest)
      | cons hd tl =>
        rw [hs] at h
        rcases List.mem_cons.mp h with rfl | hm
        · obtain ⟨v, hv, hnl⟩ := splitLines_head rest hs
          refine ⟨⟨[], v, by rw [hv]; rfl⟩, ?_⟩
          intro hmem
          rcases List.mem_cons.mp hmem with he | hm2
          · exact hc he.symm
          · exact hnl hm2
        · have hmem : l ∈ splitLines rest := by
            rw [hs]; exact List.mem_cons_of_mem hd hm
          obtain ⟨⟨u, v, huv⟩, hnl⟩ := ih hmem
          exact ⟨⟨c :: u, v, by rw [huv]; rfl⟩, hnl⟩

theorem splitLines_eq_single {x : List Char} (hx : '\n' ∉ x) :
    splitLines x = [x] := by
  induction x with
  | nil => rfl
  | cons c rest ih =>
    have hc : ¬(c = '\n') := fun h => hx (by rw [h]; exact List.mem_cons_self ..)
    unfold splitLines
    rw [if_neg hc, ih (fun hm => hx (List.mem_cons_of_mem _ hm))]

theorem splitLines_append_sep (x t : List Char) (hx : '\n' ∉ x) :
    splitLines (x ++ '\n' :: t) = x :: splitLines t := by
  induction x with
  | nil =>
    show splitLines ('\n' :: t) = [] :: splitLines t
    rw [splitLines, if_pos rfl]
  | cons c rest ih =>
    have hc : ¬(c = '\n') := fun h => hx (by rw [h]; exact List.mem_cons_self ..)
    show splitLines (c :: (rest ++ '\n' :: t)) = (c :: rest) :: splitLines t
    rw [splitLines, if_neg hc, ih (fun hm => hx (List.mem_cons_of_mem _ hm))]

theorem splitLines_joinLines {ls : List (List Char)} (h : ls ≠ [])
    (hnl : ∀ l ∈ ls, '\n' ∉ l) : splitLines (joinLines ls) = ls := by
  induction ls with
  | nil => cases h rfl
  | cons l rest ih =>
    cases rest with
    | nil => exact splitLines_eq_single (hnl l (List.mem_cons_self ..))
    | cons l2 rest2 =>
      show splitLines (l ++ '\n' :: joinLines (l2 :: rest2)) = l :: l2 :: rest2
      rw [splitLines_append_sep _ _ (hnl l (List.mem_cons_self ..)),
        ih (by simp) (fun x hx => hnl x (List.mem_cons_of_mem _ hx))]

theorem replaceClickupLine_some {tid : List Char} {lines ls : List (List Char)}
    (h : replaceClickupLine tid lines = some ls) :
    ∃ pre old suf, lines = pre ++ old :: suf ∧ isClickupIdLine old = true ∧
      (∀ l ∈ pre, isClickupIdLine l = false) ∧
      ls = pre ++ newIdLine tid :: suf := by
  induction lines generalizing ls with
  | nil => cases h
  | cons l rest ih =>
    unfold replaceClickupLine at h
    split at h
    case isTrue hc =>
      injection h with h
      exact ⟨[], l, rest, rfl, hc, fun x hx => absurd hx (List.not_mem_nil x),
        h.symm⟩
    case isFalse hc =>
      cases hr : replaceClickupLine tid rest with
      | none => rw [hr] at h; cases h
      | some ls2 =>
        rw [hr] at h
        injection h with h
        obtain ⟨pre, old, suf, h1, h2, h3, h4⟩ := ih hr
        refine ⟨l :: pre, old, suf, by rw [h1]; rfl, h2, ?_, by rw [← h, h4]; rfl⟩
        intro x hx
        rcases List.mem_cons.mp hx with rfl | hx2
        · exact Bool.eq_false_iff.mpr hc
        · exact h3 x hx2

theorem insertAfterIdLine_some {tid : List Char} {lines ls : List (List Char)}
    (h : insertAfterIdLine tid lines = some ls) :
    ∃ pre idl suf, lines = pre ++ idl :: suf ∧ isIdLine idl = true ∧
      (∀ l ∈ pre, isIdLine l = false) ∧
      ls = pre ++ idl :: newIdLine tid :: suf := by
  induction lines generalizing ls with
  | nil => cases h
  | cons l rest ih =>
    unfold insertAfterIdLine at h
    split at h
    case isTrue hc =>
      injection h with h
      exact ⟨[], l, rest, rfl, hc, fun x hx => absurd hx (List.not_mem_nil x),
        h.symm⟩
    case isFalse hc =>
      cases hr : insertAfterIdLine tid rest with
      | none => rw [hr] at h; cases h
      | some ls2 =>
        rw [hr] at h
        injection h with h
        obtain ⟨pre, idl, suf, h1, h2, h3, h4⟩ := ih hr
        refine ⟨l :: pre, idl, suf, by rw [h1]; rfl, h2, ?_, by rw [← h, h4]; rfl⟩
        intro x hx
        rcases List.mem_cons.mp hx with rfl | hx2
        · exact Bool.eq_false_iff.mpr hc
        · exact h3 x hx2

theorem replaceClickupLine_none {tid : List Char} {lines : List (List Char)}
    (h : ∀ l ∈ lines, isClickupIdLine l = false) :
    replaceClickupLine tid lines = none := by
  induction lines with
  | nil => rfl
  | cons l rest ih =>
    unfold replaceClickupLine
    rw [if_neg (by simp [h l (List.mem_cons_self ..)]),
      ih (fun x hx => h x (List.mem_cons_of_mem _ hx))]
    rfl

theorem of_replaceClickupLine_none {tid : List Char} {lines : List (List Char)}
    (h : replaceClickupLine tid lines = none) :
    ∀ l ∈ lines, isClickupIdLine l = false := by
  induction lines with
  | nil => intro l hl; exact absurd hl (List.not_mem_nil l)
  | cons l rest ih =>
    unfold replaceClickupLine at h
    split at h
    case isTrue hc => cases h
    case isFalse hc =>
      cases hr : replaceClickupLine tid rest with
      | some ls2 => rw [hr] at h; cases h
      | none =>
        intro x hx
        rcases List.mem_cons.mp hx with rfl | hx2
        · exact Bool.eq_false_iff.mpr hc
        · exact ih hr x hx2

theorem newline_not_mem_newIdLine {tid : List Char} (hnl : '\n' ∉ tid) :
    '\n' ∉ newIdLine tid := by
  unfold newIdLine
  intro hm
  rcases List.mem_append.mp hm with h1 | h2
  · revert h1; decide
  · rcases List.mem_cons.mp h2 with he | h3
    · exact absurd he (by decide)
    · rcases List.mem_append.mp h3 with h4 | h5
      · exact hnl h4
      · revert h5; decide

theorem updateSpecContent_written {content tid c' : List Char}
    (hw : updateSpecContent content tid = .written c') :
    (∃ ls, replaceClickupLine tid (splitLines content) = some ls ∧
      c' = joinLines ls) ∨
    (replaceClickupLine tid (splitLines content) = none ∧
      ∃ ls, insertAfterIdLine tid (splitLines content) = some ls ∧
        c' = joinLines ls) := by
  unfold updateSpecContent at hw
  cases hf : findExistingId content with
  | some g =>
    rw [hf] at hw
    dsimp only at hw
    split at hw
    · cases hr : replaceClickupLine tid (splitLines content) with
      | some ls =>
        rw [hr] at hw
        injection hw with hw
        exact Or.inl ⟨ls, rfl, hw.symm⟩
      | none =>
        rw [hr] at hw
        cases hi : insertAfterIdLine tid (splitLines content) with
        | some ls =>
          rw [hi] at hw
          injection hw with hw
          exact Or.inr ⟨rfl, ls, rfl, hw.symm⟩
        | none => rw [hi] at hw; cases hw
    · cases hw
  | none =>
    rw [hf] at hw
    dsimp only at hw
    cases hr : replaceClickupLine tid (splitLines content) with
    | some ls =>
      rw [hr] at hw
      injection hw with hw
      exact Or.inl ⟨ls, rfl, hw.symm⟩
    | none =>
      rw [hr] at hw
      cases hi : insertAfterIdLine tid (splitLines content) with
      | some ls =>
        rw [hi] at hw
        injection hw with hw
        exact Or.inr ⟨rfl, ls, rfl, hw.symm⟩
      | none => rw [hi] at hw; cases hw

end Sync

namespace Sync

theorem updateSpecContent_written_guard {content tid c' : List Char}
    (hw : updateSpecContent content tid = .written c') :
    ∀ g, findExistingId content = some g → (jsTrim g).isEmpty = true := by
  intro g hg
  unfold updateSpecContent at hw
  rw [hg] at hw
  dsimp only at hw
  split at hw
  · assumption
  · cases hw

end Sync

/-- **C9**: whenever `updateSpecFileWithTaskId` writes, the new content's
lines are the old content's lines with exactly one line changed: either the
first `^clickup_task_id:` line (whose regex-matched value, if any, trimmed to
empty) replaced in place by `clickup_task_id: '<id>'`, or — when no such line
exists — that line inserted immediately after the first `^id:\s+` line; every
other line is preserved verbatim, in its original order. -/
theorem c9_write_preserves_other_lines (content tid c' : List Char)
    (hnl : '\n' ∉ tid)
    (hw : Sync.updateSpecContent content tid = .written c') :
    ∃ pre suf,
      Sync.splitLines c' = pre ++ Sync.newIdLine tid :: suf ∧
      ((∃ old, Sync.splitLines content = pre ++ old :: suf ∧
          Sync.isClickupIdLine old = true ∧
          (∀ l ∈ pre, Sync.isClickupIdLine l = false) ∧
          (∀ g, Sync.findExistingId content = some g →
            (Sync.jsTrim g).isEmpty = true)) ∨
       ((∀ l ∈ Sync.splitLines content, Sync.isClickupIdLine l = false) ∧
        ∃ pre0 idl, pre = pre0 ++ [idl] ∧
          Sync.splitLines content = pre0 ++ idl :: suf ∧
          Sync.isIdLine idl = true ∧ (∀ l ∈ pre0, Sync.isIdLine l = false))) := by
  rcases Sync.updateSpecContent_written hw with ⟨ls, hr, hc⟩ | ⟨hrnone, ls, hi, hc⟩
  · obtain ⟨pre, old, suf, h1, h2, h3, h4⟩ := Sync.replaceClickupLine_some hr
    have hrt : Sync.splitLines c' = ls := by
      rw [hc]
      apply Sync.splitLines_joinLines
      · rw [h4]; simp
      · intro l hl
        rw [h4] at hl
        rcases List.mem_append.mp hl with hp | hcs
        · exact (Sync.mem_splitLines (show l ∈ Sync.splitLines content by
            rw [h1]; exact List.mem_append.mpr (Or.inl hp))).2
        · rcases List.mem_cons.mp hcs with rfl | hsf
          · exact Sync.newline_not_mem_newIdLine hnl
          · exact (Sync.mem_splitLines (show l ∈ Sync.splitLines content by
              rw [h1]
              exact List.mem_append.mpr (Or.inr (List.mem_cons_of_mem _ hsf)))).2
    exact ⟨pre, suf, by rw [hrt, h4],
      Or.inl ⟨old, h1, h2, h3, Sync.updateSpecContent_written_guard hw⟩⟩
  · obtain ⟨pre0, idl, suf, h1, h2, h3, h4⟩ := Sync.insertAfterIdLine_some hi
    have hrt : Sync.splitLines c' = ls := by
      rw [hc]
      apply Sync.splitLines_joinLines
      · rw [h4]; simp
      · intro l hl
        rw [h4] at hl
        rcases List.mem_append.mp hl with hp | hcs
        · exact (Sync.mem_splitLines (show l ∈ Sync.splitLines content by
            rw [h1]; exact List.mem_append.mpr (Or.inl hp))).2
        · rcases List.mem_cons.mp hcs with rfl | hcs2
          · exact (Sync.mem_splitLines (show l ∈ Sync.splitLines content by
              rw [h1]; exact List.mem_append.mpr (Or.inr (List.mem_cons_self ..)))).2
          rcases List.mem_cons.mp hcs2 with rfl | hsf
          · exact Sync.newline_not_mem_newIdLine hnl
          · exact (Sync.mem_splitLines (show l ∈ Sync.splitLines content by
              rw [h1]
              exact List.mem_append.mpr (Or.inr (List.mem_cons_of_mem _ hsf)))).2
    refine ⟨pre0 ++ [idl], suf, ?_,
      Or.inr ⟨Sync.of_replaceClickupLine_none hrnone, pre0, idl, rfl, h1, h2, h3⟩⟩
    rw [hrt, h4]
    simp

/-- Witness for C9 at a concrete two-line header without a
`clickup_task_id` field. -/
theorem c9_write_preserves_other_lines_witness :
    ∃ pre suf,
      Sync.splitLines "id: X\nclickup_task_id: 'abc'\ntitle: T".data =
        pre ++ Sync.newIdLine "abc".data :: suf ∧
      ((∃ old, Sync.splitLines "id: X\ntitle: T".data = pre ++ old :: suf ∧
          Sync.isClickupIdLine old = true ∧
          (∀ l ∈ pre, Sync.isClickupIdLine l = false) ∧
          (∀ g, Sync.findExistingId "id: X\ntitle: T".data = some g →
            (Sync.jsTrim g).isEmpty = true)) ∨
       ((∀ l ∈ Sync.splitLines "id: X\ntitle: T".data,
          Sync.isClickupIdLine l = false) ∧
        ∃ pre0 idl, pre = pre0 ++ [idl] ∧
          Sync.splitLines "id: X\ntitle: T".data = pre0 ++ idl :: suf ∧
          Sync.isIdLine idl = true ∧ (∀ l ∈ pre0, Sync.isIdLine l = false))) :=
  c9_write_preserves_other_lines "id: X\ntitle: T".data "abc".data
    "id: X\nclickup_task_id: 'abc'\ntitle: T".data (by decide) (by decide)

namespace Sync

/-! ### Leftmost-match analysis of the `clickup_task_id` regex (for C4) -/

theorem prefix_append_le {α : Type} {p x y : List α} (h : p <+: x ++ y)
    (hl : p.length ≤ x.length) : p <+: x :=
  List.prefix_of_prefix_length_le h (List.prefix_append x y) hl

theorem mem_of_prefix_append_long {α : Type} {p x y : List α} {a : α}
    (h : p <+: x ++ a :: y) (hl : x.length < p.length) : a ∈ p := by
  have hx : x <+: p :=
    List.prefix_of_prefix_length_le (List.prefix_append x (a :: y)) h
      (Nat.le_of_lt hl)
  obtain ⟨p', rfl⟩ := hx
  obtain ⟨t, ht⟩ := h
  rw [List.append_assoc] at ht
  have hpt := List.append_cancel_left ht
  cases p' with
  | nil => simp at hl
  | cons c p'' =>
    have hc : c = a := List.head_eq_of_cons_eq hpt
    subst hc
    exact List.mem_append.mpr (Or.inr (List.mem_cons_self ..))

theorem isPrefixOf_sep_false {p x y : List Char} (hnl : '\n' ∉ p)
    (hpre : p.isPrefixOf x = false) :
    p.isPrefixOf (x ++ '\n' :: y) = false := by
  cases hb : p.isPrefixOf (x ++ '\n' :: y) with
  | false => rfl
  | true =>
    exfalso
    rw [List.isPrefixOf_iff_prefix] at hb
    rcases le_or_lt p.length x.length with hle | hlt
    · have hpx := prefix_append_le hb hle
      rw [← List.isPrefixOf_iff_prefix] at hpx
      rw [hpx] at hpre
      cases hpre
    · exact hnl (mem_of_prefix_append_long hb hlt)

theorem occursIn_nil_pat (l : List Char) : occursIn [] l = true := by
  cases l <;> simp [occursIn]

theorem occursIn_of_isPrefixOf {p l : List Char}
    (h : p.isPrefixOf l = true) : occursIn p l = true := by
  cases l with
  | nil =>
    cases p with
    | nil => rfl
    | cons a as => cases h
  | cons c rest =>
    unfold occursIn
    rw [h]
    rfl

theorem occursIn_append_right (p x y : List Char)
    (h : occursIn p y = true) : occursIn p (x ++ y) = true := by
  induction x with
  | nil => exact h
  | cons a x' ih =>
    show occursIn p (a :: (x' ++ y)) = true
    unfold occursIn
    rw [ih]
    simp

theorem occursIn_append_left (p x y : List Char)
    (h : occursIn p x = true) : occursIn p (x ++ y) = true := by
  induction x with
  | nil =>
    have hp : p = [] := by
      cases p with
      | nil => rfl
      | cons a as => cases h
    subst hp
    exact occursIn_nil_pat _
  | cons a x' ih =>
    unfold occursIn at h
    show occursIn p (a :: (x' ++ y)) = true
    unfold occursIn
    rw [Bool.or_eq_true] at h
    rcases h with h1 | h2
    · have hpp : p <+: a :: (x' ++ y) :=
        (List.isPrefixOf_iff_prefix.mp h1).trans
          (show a :: x' <+: a :: (x' ++ y) from
            (List.prefix_append (a :: x') y))
      rw [← List.isPrefixOf_iff_prefix] at hpp
      rw [hpp]
      simp
    · rw [ih h2]
      simp

theorem occursIn_infix {p l : List Char} (h : occursIn p l = true)
    (u v : List Char) : occursIn p (u ++ l ++ v) = true := by
  rw [List.append_assoc]
  exact occursIn_append_right p u (l ++ v) (occursIn_append_left p l v h)

theorem matchAt_eq_none {cs : List Char}
    (h : litKey.isPrefixOf cs = false) : matchAt cs = none := by
  unfold matchAt
  rw [h]
  rfl

theorem findExistingId_eq_none {cs : List Char}
    (h : occursIn litKey cs = false) : findExistingId cs = none := by
  induction cs with
  | nil => rfl
  | cons c rest ih =>
    unfold occursIn at h
    rw [Bool.or_eq_false_iff] at h
    unfold findExistingId
    rw [matchAt_eq_none h.1]
    exact ih h.2

theorem findExistingId_skip (A b : List Char)
    (h : occursIn litKey A = false) :
    findExistingId (A ++ '\n' :: b) = findExistingId b := by
  induction A with
  | nil =>
    show findExistingId ('\n' :: b) = findExistingId b
    have hnp : litKey.isPrefixOf ('\n' :: b) = false :=
      isPrefixOf_sep_false (p := litKey) (x := []) (by decide) (by decide)
    rw [findExistingId, matchAt_eq_none hnp]
  | cons a A' ih =>
    unfold occursIn at h
    rw [Bool.or_eq_false_iff] at h
    show findExistingId (a :: (A' ++ '\n' :: b)) = findExistingId b
    have hnp : litKey.isPrefixOf (a :: (A' ++ '\n' :: b)) = false :=
      isPrefixOf_sep_false (by decide) h.1
    rw [findExistingId, matchAt_eq_none hnp]
    exact ih h.2

theorem occursIn_sep_false {p x y : List Char} (hp : p ≠ []) (hnl : '\n' ∉ p)
    (hx : occursIn p x = false) (hy : occursIn p y = false) :
    occursIn p (x ++ '\n' :: y) = false := by
  induction x with
  | nil =>
    show occursIn p ('\n' :: y) = false
    unfold occursIn
    rw [Bool.or_eq_false_iff]
    refine ⟨?_, hy⟩
    cases p with
    | nil => cases hp rfl
    | cons pc p' =>
      have hpc : ¬(pc = '\n') :=
        fun h => hnl (by rw [← h]; exact List.mem_cons_self ..)
      rw [List.isPrefixOf_cons₂]
      simp [hpc]
  | cons a x' ih =>
    unfold occursIn at hx
    rw [Bool.or_eq_false_iff] at hx
    show occursIn p (a :: (x' ++ '\n' :: y)) = false
    unfold occursIn
    rw [Bool.or_eq_false_iff]
    exact ⟨isPrefixOf_sep_false hnl hx.1, ih hx.2⟩

theorem occursIn_joinLines_false {p : List Char} (hp : p ≠ [])
    (hnl : '\n' ∉ p) {ls : List (List Char)}
    (h : ∀ l ∈ ls, occursIn p l = false) (hne : ls ≠ []) :
    occursIn p (joinLines ls) = false := by
  induction ls with
  | nil => cases hne rfl
  | cons l rest ih =>
    cases rest with
    | nil => exact h l (List.mem_cons_self ..)
    | cons l2 rest2 =>
      show occursIn p (l ++ '\n' :: joinLines (l2 :: rest2)) = false
      exact occursIn_sep_false hp hnl (h l (List.mem_cons_self ..))
        (ih (fun x hx => h x (List.mem_cons_of_mem _ hx)) (by simp))

theorem joinLines_append {xs ys : List (List Char)} (hxs : xs ≠ [])
    (hys : ys ≠ []) :
    joinLines (xs ++ ys) = joinLines xs ++ '\n' :: joinLines ys := by
  induction xs with
  | nil => cases hxs rfl
  | cons x xs' ih =>
    cases xs' with
    | nil =>
      cases ys with
      | nil => cases hys rfl
      | cons y ys' => rfl
    | cons x2 xs'' =>
      show x ++ '\n' :: joinLines ((x2 :: xs'') ++ ys) =
        (x ++ '\n' :: joinLines (x2 :: xs'')) ++ '\n' :: joinLines ys
      rw [ih (by simp)]
      simp

end Sync

namespace Sync

theorem takeWhile_boundary {p : Char → Bool} (x : List Char) (a : Char)
    (y : List Char) (hx : ∀ c ∈ x, p c = true) (ha : p a = false) :
    (x ++ a :: y).takeWhile p = x := by
  induction x with
  | nil =>
    show (a :: y).takeWhile p = []
    rw [List.takeWhile_cons, ha]
    simp
  | cons c x' ih =>
    show (c :: (x' ++ a :: y)).takeWhile p = c :: x'
    rw [List.takeWhile_cons, hx c (List.mem_cons_self ..),
      ih (fun d hd => hx d (List.mem_cons_of_mem _ hd))]
    simp

theorem dropWhile_boundary {p : Char → Bool} (x : List Char) (a : Char)
    (y : List Char) (hx : ∀ c ∈ x, p c = true) (ha : p a = false) :
    (x ++ a :: y).dropWhile p = a :: y := by
  induction x with
  | nil =>
    show (a :: y).dropWhile p = a :: y
    rw [List.dropWhile_cons, ha]
    simp
  | cons c x' ih =>
    show (c :: (x' ++ a :: y)).dropWhile p = a :: y
    rw [List.dropWhile_cons, hx c (List.mem_cons_self ..),
      ih (fun d hd => hx d (List.mem_cons_of_mem _ hd))]
    simp

theorem litKey_isPrefixOf_append (t : List Char) :
    litKey.isPrefixOf (litKey ++ t) = true := by
  rw [List.isPrefixOf_iff_prefix]
  exact List.prefix_append ..

theorem matchAt_newIdLine (tid rest : List Char) (hne : tid ≠ [])
    (hq : quoteChar ∉ tid) :
    matchAt (litKey ++ (' ' :: quoteChar :: (tid ++ quoteChar :: rest))) =
      some tid := by
  have hmem : ∀ c ∈ tid, notQuote c = true := by
    intro c hc
    unfold notQuote
    simp only [decide_eq_true_eq]
    intro h
    exact hq (h ▸ hc)
  have htk : (tid ++ quoteChar :: rest).takeWhile notQuote = tid :=
    takeWhile_boundary tid quoteChar rest hmem (by decide)
  have hdr : (tid ++ quoteChar :: rest).dropWhile notQuote = quoteChar :: rest :=
    dropWhile_boundary tid quoteChar rest hmem (by decide)
  have hdw : (' ' :: quoteChar :: (tid ++ quoteChar :: rest)).dropWhile isWsChar
      = quoteChar :: (tid ++ quoteChar :: rest) := by
    rw [List.dropWhile_cons, show isWsChar ' ' = true from by decide,
      List.dropWhile_cons, show isWsChar quoteChar = false from by decide]
    simp
  unfold matchAt
  rw [litKey_isPrefixOf_append, if_pos rfl, List.drop_left]
  unfold matchQuoted
  rw [hdw]
  dsimp only
  rw [if_pos rfl, htk, hdr]
  rw [if_neg (by simp [hne]), if_neg (by simp)]

theorem findExistingId_newIdLine (tid rest : List Char) (hne : tid ≠ [])
    (hq : quoteChar ∉ tid) :
    findExistingId (newIdLine tid ++ rest) = some tid := by
  have hshape : newIdLine tid ++ rest =
      litKey ++ (' ' :: quoteChar :: (tid ++ quoteChar :: rest)) := by
    unfold newIdLine
    have hkey : "clickup_task_id: ".data = litKey ++ [' '] := by decide
    rw [hkey]
    simp
  rw [hshape]
  have hm := matchAt_newIdLine tid rest hne hq
  cases hL : litKey ++ (' ' :: quoteChar :: (tid ++ quoteChar :: rest)) with
  | nil => cases hL
  | cons c cs =>
    rw [hL] at hm
    rw [findExistingId, hm]

end Sync

/-- **C4**: first write wins.  Starting from a header that does not yet
mention `clickup_task_id` anywhere, a first successful write-back stores
`clickup_task_id: '<id1>'`, and a second write-back with any other id detects
the non-empty stored value, modifies nothing, and reports it as already set
(the outcome carries the first id, not the second). -/
theorem c4_first_write_wins (content tid1 tid2 c1 : List Char)
    (hno : Sync.occursIn Sync.litKey content = false)
    (hne : tid1 ≠ []) (hq : Sync.quoteChar ∉ tid1) (hnl : '\n' ∉ tid1)
    (htr : (Sync.jsTrim tid1).isEmpty = false)
    (hw : Sync.updateSpecContent content tid1 = .written c1) :
    Sync.updateSpecContent c1 tid2 = .alreadySet tid1 ∧
    Sync.newIdLine tid1 ∈ Sync.splitLines c1 := by
  have hlineocc : ∀ l ∈ Sync.splitLines content,
      Sync.occursIn Sync.litKey l = false := by
    intro l hl
    cases hb : Sync.occursIn Sync.litKey l with
    | false => rfl
    | true =>
      exfalso
      obtain ⟨⟨u, v, huv⟩, _⟩ := Sync.mem_splitLines hl
      have hocc := Sync.occursIn_infix hb u v
      rw [← huv] at hocc
      rw [hocc] at hno
      cases hno
  have hlines : ∀ l ∈ Sync.splitLines content,
      Sync.isClickupIdLine l = false := by
    intro l hl
    cases hb : Sync.isClickupIdLine l with
    | false => rfl
    | true =>
      exfalso
      have := Sync.occursIn_of_isPrefixOf hb
      rw [hlineocc l hl] at this
      cases this
  rcases Sync.updateSpecContent_written hw with ⟨ls, hr, hc⟩ | ⟨_, ls, hi, hc⟩
  · rw [Sync.replaceClickupLine_none hlines] at hr
    cases hr
  obtain ⟨pre0, idl, suf, h1, h2, h3, h4⟩ := Sync.insertAfterIdLine_some hi
  have hmemls : ∀ l ∈ ls, l ∈ Sync.splitLines content ∨
      l = Sync.newIdLine tid1 := by
    intro l hl
    rw [h4] at hl
    rw [h1]
    rcases List.mem_append.mp hl with hp | hcs
    · exact Or.inl (List.mem_append.mpr (Or.inl hp))
    rcases List.mem_cons.mp hcs with rfl | hcs2
    · exact Or.inl (List.mem_append.mpr (Or.inr (List.mem_cons_self ..)))
    rcases List.mem_cons.mp hcs2 with rfl | hsf
    · exact Or.inr rfl
    · exact Or.inl (List.mem_append.mpr (Or.inr (List.mem_cons_of_mem _ hsf)))
  have hnlls : ∀ l ∈ ls, '\n' ∉ l := by
    intro l hl
    rcases hmemls l hl with hm | rfl
    · exact (Sync.mem_splitLines hm).2
    · exact Sync.newline_not_mem_newIdLine hnl
  have hrt : Sync.splitLines c1 = ls := by
    rw [hc]
    exact Sync.splitLines_joinLines (by rw [h4]; simp) hnlls
  have hmemnew : Sync.newIdLine tid1 ∈ Sync.splitLines c1 := by
    rw [hrt, h4]
    exact List.mem_append.mpr
      (Or.inr (List.mem_cons_of_mem _ (List.mem_cons_self ..)))
  have hshape : c1 = Sync.joinLines (pre0 ++ [idl]) ++
      '\n' :: Sync.joinLines (Sync.newIdLine tid1 :: suf) := by
    rw [hc, h4]
    rw [show pre0 ++ idl :: Sync.newIdLine tid1 :: suf =
      (pre0 ++ [idl]) ++ (Sync.newIdLine tid1 :: suf) from by simp]
    exact Sync.joinLines_append (by simp) (by simp)
  have hocchead : Sync.occursIn Sync.litKey
      (Sync.joinLines (pre0 ++ [idl])) = false := by
    apply Sync.occursIn_joinLines_false (by decide) (by decide)
    · intro l hl
      apply hlineocc
      rw [h1]
      rcases List.mem_append.mp hl with hp | hi2
      · exact List.mem_append.mpr (Or.inl hp)
      · rcases List.mem_singleton.mp hi2 with rfl
        exact List.mem_append.mpr (Or.inr (List.mem_cons_self ..))
    · simp
  have htail : ∃ restc, Sync.joinLines (Sync.newIdLine tid1 :: suf) =
      Sync.newIdLine tid1 ++ restc := by
    cases suf with
    | nil => exact ⟨[], by simp [Sync.joinLines]⟩
    | cons s suf2 => exact ⟨'\n' :: Sync.joinLines (s :: suf2), rfl⟩
  obtain ⟨restc, hrestc⟩ := htail
  have hfind : Sync.findExistingId c1 = some tid1 := by
    rw [hshape, hrestc, Sync.findExistingId_skip _ _ hocchead,
      Sync.findExistingId_newIdLine tid1 restc hne hq]
  refine ⟨?_, hmemnew⟩
  unfold Sync.updateSpecContent
  rw [hfind]
  dsimp only
  rw [if_neg (by simp [htr])]

/-- Witness for C4: writing `abc` into a fresh two-line header and then
attempting to write `zzz` leaves `abc` in place and reports already-set. -/
theorem c4_first_write_wins_witness :
    Sync.updateSpecContent "id: X\nclickup_task_id: 'abc'\ntitle: T".data
      "zzz".data = .alreadySet "abc".data ∧
    Sync.newIdLine "abc".data ∈
      Sync.splitLines "id: X\nclickup_task_id: 'abc'\ntitle: T".data :=
  c4_first_write_wins "id: X\ntitle: T".data "abc".data "zzz".data
    "id: X\nclickup_task_id: 'abc'\ntitle: T".data
    (by decide) (by decide) (by decide) (by decide) (by decide) (by decide)
